import Mathlib

set_option maxRecDepth 2000

/-!
# Verification of the mp3tag ID3v2 tag engine

Shallow embedding of the mp3tag library (JavaScript) into Lean 4, together
with proofs about its synsafe integer codec (`src/encoding.js`), its string
and comment codec (`src/decoder.js`, `src/cp.js`), its tag-data mutation
operations (`src/tagdata.js`) and its tag reader (`src/mp3tag.js`,
`src/src/frame.ts`).

JavaScript numbers passed through bitwise operators are converted to 32-bit
integers; this is modelled by an explicit `% 2 ^ 32`.  Byte buffers are
modelled as `List Nat` of byte values, JavaScript strings as `List Nat` of
UTF-16 code units.  Fallible operations return `Except JsError`.
-/

/-- Error kinds thrown by the JavaScript source (`throw new Error(...)` and
runtime `TypeError`s from accessing properties of `undefined`). -/
inductive JsError where
  /-- A runtime TypeError: property access or call on `undefined`. -/
  | typeError
  /-- cp.js: "Unsupported encoding" -/
  | unsupportedEncoding
  /-- decoder.js getBufferEncoding: "Unknown encoding byte" -/
  | unknownEncodingByte
  /-- decoder.js decodeCString: "Expected NULL terminated string" -/
  | unterminatedString
  /-- decoder.js decodeString/decodeComment rethrow: "Unsupported buffer encoding" -/
  | unsupportedBufferEncoding
  /-- mp3tag.js: "Can't read ID3 tag header!" -/
  | cantReadHeader
  /-- mp3tag.js: "Unsupported ID3 version" -/
  | unsupportedVersion
  /-- mp3tag.js: "No support for extended header yet!" -/
  | extendedHeader
  /-- file read failure / short read -/
  | readError
  deriving DecidableEq, Repr

/-! ## SynsafeCodec (`src/encoding.js`)

`decodeUInt7Bit` and `encodeUInt7Bit` translated from `src/encoding.js`
lines 13-28.  The JavaScript bitwise operators act on the operand converted
to a 32-bit integer; all masks involved leave bit 31 clear, so the
computation agrees with plain natural-number bit operations on `n % 2 ^ 32`.
-/

/-- `decodeUInt7Bit` from `src/encoding.js`:
`(x & 0x7F) | ((x & 0x7F00) >> 1) | ((x & 0x7F0000) >> 2) | ((x & 0x7F000000) >> 3)`. -/
def decodeUInt7Bit (uint28 : Nat) : Nat :=
  (uint28 % 2 ^ 32 &&& 0x7F) ||| ((uint28 % 2 ^ 32 &&& 0x7F00) >>> 1) |||
    ((uint28 % 2 ^ 32 &&& 0x7F0000) >>> 2) ||| ((uint28 % 2 ^ 32 &&& 0x7F000000) >>> 3)

/-- `encodeUInt7Bit` from `src/encoding.js`:
`(x & 0x7F) | (((x >> 7) & 0x7F) << 8) | (((x >> 14) & 0x7F) << 16) | (((x >> 21) & 0x7F) << 24)`. -/
def encodeUInt7Bit (uint32 : Nat) : Nat :=
  (uint32 % 2 ^ 32 &&& 0x7F) ||| ((((uint32 % 2 ^ 32) >>> 7) &&& 0x7F) <<< 8) |||
    ((((uint32 % 2 ^ 32) >>> 14) &&& 0x7F) <<< 16) |||
    ((((uint32 % 2 ^ 32) >>> 21) &&& 0x7F) <<< 24)

/-- A shifted block or-ed below its shift amount is a plain sum. -/
theorem shiftLeft_lor_eq_add (a b n : Nat) (hb : b < 2 ^ n) :
    (a <<< n) ||| b = 2 ^ n * a + b := by
  apply Nat.eq_of_testBit_eq
  intro j
  rw [Nat.testBit_lor, Nat.testBit_shiftLeft, Nat.testBit_mul_pow_two_add a hb]
  by_cases h : j < n
  · have : ¬ (j ≥ n) := by omega
    simp [h, this]
  · have hd : j ≥ n := by omega
    have hbj : b.testBit j = false :=
      Nat.testBit_lt_two_pow (lt_of_lt_of_le hb (Nat.pow_le_pow_right (by norm_num) hd))
    simp [h, hd, hbj]

/-- Masking with a shifted all-ones block extracts the corresponding bit field. -/
theorem and_mask_shift (x n k : Nat) :
    x &&& ((2 ^ n - 1) <<< k) = ((x >>> k) % 2 ^ n) <<< k := by
  apply Nat.eq_of_testBit_eq
  intro j
  rw [Nat.testBit_and, Nat.testBit_shiftLeft, Nat.testBit_shiftLeft,
    Nat.testBit_two_pow_sub_one, Nat.testBit_mod_two_pow, Nat.testBit_shiftRight]
  by_cases h : k ≤ j
  · have hj : k + (j - k) = j := by omega
    have hd : j ≥ k := h
    simp [hd, hj, Bool.and_comm]
  · have : ¬ (j ≥ k) := by omega
    simp [this]

/-- Four disjoint 7-bit fields at strides of 8 bits, combined with `|||`,
form a plain sum. -/
theorem lor_blocks8 (c0 c1 c2 c3 : Nat) (h0 : c0 < 2 ^ 7) (h1 : c1 < 2 ^ 7)
    (h2 : c2 < 2 ^ 7) (h3 : c3 < 2 ^ 7) :
    c0 ||| (c1 <<< 8) ||| (c2 <<< 16) ||| (c3 <<< 24) =
      2 ^ 24 * c3 + (2 ^ 16 * c2 + (2 ^ 8 * c1 + c0)) := by
  have e1 : c0 ||| (c1 <<< 8) = 2 ^ 8 * c1 + c0 := by
    rw [Nat.lor_comm]; exact shiftLeft_lor_eq_add _ _ _ (by omega)
  rw [e1]
  have e2 : (2 ^ 8 * c1 + c0) ||| (c2 <<< 16) = 2 ^ 16 * c2 + (2 ^ 8 * c1 + c0) := by
    rw [Nat.lor_comm]; exact shiftLeft_lor_eq_add _ _ _ (by omega)
  rw [e2]
  have e3 : (2 ^ 16 * c2 + (2 ^ 8 * c1 + c0)) ||| (c3 <<< 24) =
      2 ^ 24 * c3 + (2 ^ 16 * c2 + (2 ^ 8 * c1 + c0)) := by
    rw [Nat.lor_comm]; exact shiftLeft_lor_eq_add _ _ _ (by omega)
  rw [e3]

/-- Four disjoint 7-bit fields at strides of 7 bits, combined with `|||`,
form a plain sum. -/
theorem lor_blocks7 (c0 c1 c2 c3 : Nat) (h0 : c0 < 2 ^ 7) (h1 : c1 < 2 ^ 7)
    (h2 : c2 < 2 ^ 7) (h3 : c3 < 2 ^ 7) :
    c0 ||| (c1 <<< 7) ||| (c2 <<< 14) ||| (c3 <<< 21) =
      2 ^ 21 * c3 + (2 ^ 14 * c2 + (2 ^ 7 * c1 + c0)) := by
  have e1 : c0 ||| (c1 <<< 7) = 2 ^ 7 * c1 + c0 := by
    rw [Nat.lor_comm]; exact shiftLeft_lor_eq_add _ _ _ (by omega)
  rw [e1]
  have e2 : (2 ^ 7 * c1 + c0) ||| (c2 <<< 14) = 2 ^ 14 * c2 + (2 ^ 7 * c1 + c0) := by
    rw [Nat.lor_comm]; exact shiftLeft_lor_eq_add _ _ _ (by omega)
  rw [e2]
  have e3 : (2 ^ 14 * c2 + (2 ^ 7 * c1 + c0)) ||| (c3 <<< 21) =
      2 ^ 21 * c3 + (2 ^ 14 * c2 + (2 ^ 7 * c1 + c0)) := by
    rw [Nat.lor_comm]; exact shiftLeft_lor_eq_add _ _ _ (by omega)
  rw [e3]

/-- Arithmetic characterisation of `encodeUInt7Bit`. -/
theorem encodeUInt7Bit_eq (n : Nat) :
    encodeUInt7Bit n =
      2 ^ 24 * (n / 2 ^ 21 % 2 ^ 7) +
        (2 ^ 16 * (n / 2 ^ 14 % 2 ^ 7) + (2 ^ 8 * (n / 2 ^ 7 % 2 ^ 7) + n % 2 ^ 7)) := by
  unfold encodeUInt7Bit
  have h7 : (0x7F : Nat) = 2 ^ 7 - 1 := by norm_num
  set x := n % 2 ^ 32 with hx
  rw [h7, Nat.and_pow_two_sub_one_eq_mod, Nat.and_pow_two_sub_one_eq_mod,
    Nat.and_pow_two_sub_one_eq_mod, Nat.and_pow_two_sub_one_eq_mod,
    Nat.shiftRight_eq_div_pow, Nat.shiftRight_eq_div_pow, Nat.shiftRight_eq_div_pow]
  rw [lor_blocks8 _ _ _ _ (Nat.mod_lt _ (by norm_num)) (Nat.mod_lt _ (by norm_num))
    (Nat.mod_lt _ (by norm_num)) (Nat.mod_lt _ (by norm_num))]
  omega

/-- Arithmetic characterisation of `decodeUInt7Bit`. -/
theorem decodeUInt7Bit_eq (n : Nat) :
    decodeUInt7Bit n =
      2 ^ 21 * (n % 2 ^ 32 / 2 ^ 24 % 2 ^ 7) +
        (2 ^ 14 * (n % 2 ^ 32 / 2 ^ 16 % 2 ^ 7) +
          (2 ^ 7 * (n % 2 ^ 32 / 2 ^ 8 % 2 ^ 7) + n % 2 ^ 32 % 2 ^ 7)) := by
  unfold decodeUInt7Bit
  have h7 : (0x7F : Nat) = 2 ^ 7 - 1 := by norm_num
  have h15 : (0x7F00 : Nat) = (2 ^ 7 - 1) <<< 8 := by decide
  have h23 : (0x7F0000 : Nat) = (2 ^ 7 - 1) <<< 16 := by decide
  have h31 : (0x7F000000 : Nat) = (2 ^ 7 - 1) <<< 24 := by decide
  set x := n % 2 ^ 32 with hx
  rw [h7, h15, h23, h31, Nat.and_pow_two_sub_one_eq_mod,
    and_mask_shift, and_mask_shift, and_mask_shift]
  have t1 : ((x >>> 8) % 2 ^ 7) <<< 8 >>> 1 = ((x >>> 8) % 2 ^ 7) <<< 7 := by
    rw [Nat.shiftLeft_eq, Nat.shiftLeft_eq, Nat.shiftRight_eq_div_pow]; omega
  have t2 : ((x >>> 16) % 2 ^ 7) <<< 16 >>> 2 = ((x >>> 16) % 2 ^ 7) <<< 14 := by
    rw [Nat.shiftLeft_eq, Nat.shiftLeft_eq, Nat.shiftRight_eq_div_pow]; omega
  have t3 : ((x >>> 24) % 2 ^ 7) <<< 24 >>> 3 = ((x >>> 24) % 2 ^ 7) <<< 21 := by
    rw [Nat.shiftLeft_eq, Nat.shiftLeft_eq, Nat.shiftRight_eq_div_pow]; omega
  rw [t1, t2, t3]
  rw [lor_blocks7 _ _ _ _ (Nat.mod_lt _ (by norm_num)) (Nat.mod_lt _ (by norm_num))
    (Nat.mod_lt _ (by norm_num)) (Nat.mod_lt _ (by norm_num))]
  rw [Nat.shiftRight_eq_div_pow, Nat.shiftRight_eq_div_pow, Nat.shiftRight_eq_div_pow]

/-- C2: for every n in [0, 2^28) the synsafe encoding round-trips,
`decodeUInt7Bit (encodeUInt7Bit n) = n`; and the encoder only depends on the
low 28 bits of its input, i.e. it silently drops the top 4 bits of a 32-bit
input. -/
theorem synsafe_roundtrip_and_drop :
    (∀ n : Nat, n < 2 ^ 28 → decodeUInt7Bit (encodeUInt7Bit n) = n) ∧
    (∀ n : Nat, encodeUInt7Bit n = encodeUInt7Bit (n % 2 ^ 28)) := by
  constructor
  · intro n hn
    rw [encodeUInt7Bit_eq, decodeUInt7Bit_eq]
    have ha : n / 2 ^ 21 % 2 ^ 7 < 128 := Nat.mod_lt _ (by norm_num)
    have hb : n / 2 ^ 14 % 2 ^ 7 < 128 := Nat.mod_lt _ (by norm_num)
    have hc : n / 2 ^ 7 % 2 ^ 7 < 128 := Nat.mod_lt _ (by norm_num)
    have hd : n % 2 ^ 7 < 128 := Nat.mod_lt _ (by norm_num)
    have hsum : n = 2 ^ 21 * (n / 2 ^ 21 % 2 ^ 7) + 2 ^ 14 * (n / 2 ^ 14 % 2 ^ 7) +
        2 ^ 7 * (n / 2 ^ 7 % 2 ^ 7) + n % 2 ^ 7 := by omega
    generalize n / 2 ^ 21 % 2 ^ 7 = a at ha hsum ⊢
    generalize n / 2 ^ 14 % 2 ^ 7 = b at hb hsum ⊢
    generalize n / 2 ^ 7 % 2 ^ 7 = c at hc hsum ⊢
    generalize n % 2 ^ 7 = d at hd hsum ⊢
    rw [hsum]
    clear hsum hn
    omega
  · intro n
    rw [encodeUInt7Bit_eq, encodeUInt7Bit_eq]
    omega

/-- Witness for C2 at the concrete input 1234567. -/
theorem synsafe_roundtrip_witness :
    1234567 < 2 ^ 28 ∧ decodeUInt7Bit (encodeUInt7Bit 1234567) = 1234567 :=
  ⟨by norm_num, synsafe_roundtrip_and_drop.1 1234567 (by norm_num)⟩

/-! ## Frame and TagData (`src/frame.js`, `src/tagdata.js`)

The TagData state is modelled with `Int` for file offsets and byte counts
(JavaScript numbers go negative in the padding arithmetic before being
clamped), `Nat` for frame payload sizes, `String` for frame ids and
`List Nat` for payload bytes.
-/

/-- Constant `TagData.TAG_HEADER_SIZE = 10`. -/
def TAG_HEADER_SIZE : Int := 10

/-- Constant `TagData.TAG_FOOTER_SIZE = 10`. -/
def TAG_FOOTER_SIZE : Int := 10

/-- Constant `Frame.HEADER_SIZE = 10`. -/
def FRAME_HEADER_SIZE : Int := 10

/-- One id3 frame (`frame.js`): id, absolute payload position `pos`, payload
size, payload bytes, frame flags, and the padding-frame marker. -/
structure Frame where
  id : String
  pos : Int
  size : Nat
  data : List Nat
  flags : Nat := 0
  padding : Bool := false
  deriving DecidableEq, Repr

/-- `Frame.allocate` (frame.js): a fresh frame at position 0 holding `buffer`. -/
def Frame.allocate (id : String) (buffer : List Nat) : Frame :=
  { id := id, pos := 0, size := buffer.length, data := buffer }

/-- `Frame.setBuffer` (frame.js): replace the payload, size follows. -/
def Frame.setBuffer (f : Frame) (buffer : List Nat) : Frame :=
  { f with data := buffer, size := buffer.length }

/-- Padding descriptor, an offset/size pair.  `size` is an `Int` because
`realignFrames` lets it go negative before clamping. -/
structure PaddingD where
  offset : Int
  size : Int
  deriving DecidableEq, Repr

/-- `Frame.getPadding` (frame.js): a padding frame describes itself, a
regular frame describes the empty padding right behind it. -/
def Frame.getPadding (f : Frame) : PaddingD :=
  if f.padding then ⟨f.pos, (f.size : Int)⟩ else ⟨f.pos + (f.size : Int), 0⟩

/-- The TagData state (`tagdata.js`).  `size` is the tag size including
header and padding/footer, i.e. the audio start offset. -/
structure TagData where
  major : Nat
  minor : Nat
  flags : Nat
  size : Int
  frames : List Frame
  padding : PaddingD
  rewrite : Bool
  dirty : Bool
  hasFooter : Bool
  deriving DecidableEq, Repr

/-- The TagData constructor (`tagdata.js` lines 36-48): `rewrite` and `dirty`
start false, `hasFooter` is `major >= 4 && (flags & 0x10) != 0`. -/
def TagData.make (major minor flags : Nat) (size : Int) (frames : List Frame)
    (padding : PaddingD) : TagData :=
  { major := major, minor := minor, flags := flags, size := size, frames := frames,
    padding := padding, rewrite := false, dirty := false,
    hasFooter := decide (4 ≤ major ∧ flags &&& 0x10 ≠ 0) }

/-- `TagData.noHeader` (tagdata.js lines 447-451): empty v2.3 tag, no frames,
empty padding at the tag header's end. -/
def TagData.noHeader : TagData :=
  TagData.make 3 0 0 TAG_HEADER_SIZE [] ⟨TAG_HEADER_SIZE, 0⟩

/-- The frame walk of `realignFrames`: starting at `pos`, each frame is moved
to `pos + FRAME_HEADER_SIZE` and the cursor advances over header and payload.
Returns the final cursor and the repositioned frames. -/
def realignWalk (pos : Int) : List Frame → Int × List Frame
  | [] => (pos, [])
  | f :: rest =>
    let f2 : Frame := { f with pos := pos + FRAME_HEADER_SIZE }
    let w := realignWalk (pos + FRAME_HEADER_SIZE + (f.size : Int)) rest
    (w.1, f2 :: w.2)

/-- The first half of `TagData.realignFrames` (both variants of tagdata.js):
walk the frames, set `dirty`, and shift/resize the padding by the cursor
delta `paddingDelta = pos - padding.offset`. -/
def realignShift (t : TagData) : TagData :=
  { t with
    frames := (realignWalk TAG_HEADER_SIZE t.frames).2,
    dirty := true,
    padding :=
      ⟨t.padding.offset + ((realignWalk TAG_HEADER_SIZE t.frames).1 - t.padding.offset),
        t.padding.size - ((realignWalk TAG_HEADER_SIZE t.frames).1 - t.padding.offset)⟩ }

/-- The final branch of `realignFrames` (first variant, `tagdata.js` lines
183-187): when the padding size became negative the tag grows, `rewrite` is
set and the padding is clamped to 0. -/
def clampPadding (t1 : TagData) : TagData :=
  if t1.padding.size < 0 then
    { t1 with
      size := t1.size + -t1.padding.size,
      rewrite := true,
      padding := ⟨t1.padding.offset, 0⟩ }
  else t1

/-- `TagData.realignFrames`, first variant (`tagdata.js` lines 165-188). -/
def realignFrames (t : TagData) : TagData :=
  clampPadding (realignShift t)

/-- The final branches of the second variant of `realignFrames`
(`tagdata.js` lines 650-660): clamp negative padding as in the first
variant, and otherwise discard the footer when padding remains
(`flags &= ~0x10`, footer size added to the padding). -/
def clampOrFooter (t1 : TagData) : TagData :=
  if t1.padding.size < 0 then
    { t1 with
      size := t1.size + -t1.padding.size,
      rewrite := true,
      padding := ⟨t1.padding.offset, 0⟩ }
  else if t1.padding.size > 0 ∧ t1.hasFooter then
    { t1 with
      hasFooter := false,
      flags := t1.flags &&& 0xFFFFFFEF,
      padding := ⟨t1.padding.offset, t1.padding.size + TAG_FOOTER_SIZE⟩ }
  else t1

/-- `TagData.realignFrames`, second variant (`tagdata.js` lines 632-661). -/
def realignFramesV2 (t : TagData) : TagData :=
  clampOrFooter (realignShift t)

/-- `TagData.getFrame`: first frame with the given id. -/
def TagData.getFrame (t : TagData) (id : String) : Option Frame :=
  t.frames.find? (fun f => f.id == id)

/-- `TagData.removeFrame` (first variant, `tagdata.js` lines 120-123):
remove every frame with the id, then realign unconditionally. -/
def removeFrame (t : TagData) (id : String) : TagData :=
  realignFrames { t with frames := t.frames.filter (fun f => f.id != id) }

/-- `TagData.allocateFrame` (first variant, `tagdata.js` lines 200-209):
append a fresh frame and realign. -/
def allocateFrame (t : TagData) (id : String) (buffer : List Nat) : TagData :=
  realignFrames { t with frames := t.frames ++ [Frame.allocate id buffer] }

/-- Helper modelling the in-place `frame.setBuffer(buffer)` on the first
frame matching `id` inside the frames array. -/
def setBufferFirst : List Frame → String → List Nat → List Frame
  | [], _, _ => []
  | f :: rest, id, buffer =>
    if f.id == id then f.setBuffer buffer :: rest
    else f :: setBufferFirst rest id buffer

/-- `TagData.reallocateFrame` (first variant, `tagdata.js` lines 134-159):
allocate when missing; no-op when the payload is byte-identical; otherwise
replace the payload, realign only when the size changed, and set `dirty`. -/
def reallocateFrame (t : TagData) (id : String) (buffer : List Nat) : TagData :=
  match t.getFrame id with
  | none => allocateFrame t id buffer
  | some frame =>
    if frame.data == buffer then t
    else if buffer.length ≠ frame.size then
      { realignFrames { t with frames := setBufferFirst t.frames id buffer } with dirty := true }
    else
      { t with frames := setBufferFirst t.frames id buffer, dirty := true }

/-- The V2 counterpart of `removeFrame` (second variant of tagdata.js, whose
`realignFrames` carries the footer branch). -/
def removeFrameV2 (t : TagData) (id : String) : TagData :=
  realignFramesV2 { t with frames := t.frames.filter (fun f => f.id != id) }

/-- The V2 counterpart of `allocateFrame`. -/
def allocateFrameV2 (t : TagData) (id : String) (buffer : List Nat) : TagData :=
  realignFramesV2 { t with frames := t.frames ++ [Frame.allocate id buffer] }

/-- The V2 counterpart of `reallocateFrame`. -/
def reallocateFrameV2 (t : TagData) (id : String) (buffer : List Nat) : TagData :=
  match t.getFrame id with
  | none => allocateFrameV2 t id buffer
  | some frame =>
    if frame.data == buffer then t
    else if buffer.length ≠ frame.size then
      { realignFramesV2 { t with frames := setBufferFirst t.frames id buffer } with dirty := true }
    else
      { t with frames := setBufferFirst t.frames id buffer, dirty := true }

/-- `TagData.checkFooter` (first variant, `tagdata.js` lines 229-237): when a
footer coexists with positive padding, drop the footer, add its size to the
padding and clear flag bit 0x10. -/
def checkFooter (t : TagData) : TagData :=
  if t.hasFooter ∧ t.padding.size > 0 then
    { t with
      hasFooter := false,
      flags := t.flags &&& 0xFFFFFFEF,
      padding := ⟨t.padding.offset, t.padding.size + TAG_FOOTER_SIZE⟩ }
  else t

/-- One write performed by `writeToFile`, in order of emission. -/
inductive WriteOp where
  | tagHeader
  | frameWrite (f : Frame)
  | paddingWrite (size : Int)
  | tagFooter
  | audio
  deriving DecidableEq, Repr

/-- `TagData.writeToFile` (first variant, `tagdata.js` lines 342-407),
modelled as a state transformer plus the list of writes it performs.
`sameFile` is the comparison `this.audioData.source.name === path`.  When
`sameFile && !dirty` nothing happens.  Otherwise `writeTagHeader` (which
calls `checkFooter`), the frames, the padding, `writeTagFooter` (which calls
`checkFooter` again) and, when `!sameFile || rewrite`, the buffered audio are
written; a same-file save finally clears `dirty`. -/
def writeToFile (t : TagData) (sameFile : Bool) : TagData × List WriteOp :=
  if sameFile ∧ ¬t.dirty then (t, [])
  else
    let t1 := checkFooter t
    let t2 := checkFooter t1
    let ops := WriteOp.tagHeader :: t1.frames.map WriteOp.frameWrite ++
      [WriteOp.paddingWrite t1.padding.size] ++
      (if t2.hasFooter then [WriteOp.tagFooter] else []) ++
      (if ¬sameFile ∨ t.rewrite then [WriteOp.audio] else [])
    (if sameFile then { t2 with dirty := false } else t2, ops)

/-! ## Frame layout invariants (C1, C10) -/

/-- The consecutive-frames invariant of §8 of the spec:
`frames[i+1].offset = frames[i].offset + frames[i].size + frame_header_size`. -/
def consecutiveOffsets (frames : List Frame) : Prop :=
  ∀ i : Nat, (h : i + 1 < frames.length) →
    (frames.get ⟨i + 1, h⟩).pos =
      (frames.get ⟨i, by omega⟩).pos + ((frames.get ⟨i, by omega⟩).size : Int) +
        FRAME_HEADER_SIZE

/-- The padding-position invariant of §8 of the spec:
`padding.offset = last_frame.offset + last_frame.size`, or `tag_header_size`
when the frame list is empty. -/
def paddingAtEnd (t : TagData) : Prop :=
  t.padding.offset =
    match t.frames.getLast? with
    | some f => f.pos + (f.size : Int)
    | none => TAG_HEADER_SIZE

/-- Frames laid out gaplessly starting at cursor `pos`. -/
def chainedFrom : Int → List Frame → Prop
  | _, [] => True
  | pos, f :: rest =>
    f.pos = pos + FRAME_HEADER_SIZE ∧ chainedFrom (f.pos + (f.size : Int)) rest

/-- Final cursor of the realign walk. -/
def walkEnd (pos : Int) : List Frame → Int
  | [] => pos
  | f :: rest => walkEnd (pos + FRAME_HEADER_SIZE + (f.size : Int)) rest

theorem realignWalk_fst (fs : List Frame) : ∀ pos, (realignWalk pos fs).1 = walkEnd pos fs := by
  induction fs with
  | nil => intro pos; rfl
  | cons f rest ih => intro pos; simp [realignWalk, walkEnd, ih]

theorem realignWalk_chained (fs : List Frame) :
    ∀ pos, chainedFrom pos (realignWalk pos fs).2 := by
  induction fs with
  | nil => intro pos; trivial
  | cons f rest ih =>
    intro pos
    refine ⟨rfl, ?_⟩
    exact ih (pos + FRAME_HEADER_SIZE + (f.size : Int))

theorem realignWalk_snd_length (fs : List Frame) :
    ∀ pos, (realignWalk pos fs).2.length = fs.length := by
  induction fs with
  | nil => intro pos; rfl
  | cons f rest ih => intro pos; simp [realignWalk, ih]

theorem realignWalk_end_eq_last (fs : List Frame) :
    ∀ pos, (realignWalk pos fs).1 =
      ((realignWalk pos fs).2.getLast?.map (fun f => f.pos + (f.size : Int))).getD pos := by
  induction fs with
  | nil => intro pos; rfl
  | cons f rest ih =>
    intro pos
    simp only [realignWalk]
    have h := ih (pos + FRAME_HEADER_SIZE + (f.size : Int))
    cases hw : (realignWalk (pos + FRAME_HEADER_SIZE + (f.size : Int)) rest).2 with
    | nil =>
      rw [hw] at h
      simp only [hw, List.getLast?_singleton, Option.map_some, Option.getD_some]
      simp only [List.getLast?_nil, Option.map_none, Option.getD_none] at h
      simp [h]
    | cons a b =>
      rw [hw] at h
      have hab : (a :: b).getLast?.isSome = true := by
        simp [List.getLast?_isSome]
      obtain ⟨g, hg⟩ := Option.isSome_iff_exists.mp hab
      rw [hg] at h
      simp only [hw, List.getLast?_cons_cons, hg, Option.map_some, Option.getD_some] at h ⊢
      exact h

theorem chainedFrom_consecutive (fs : List Frame) :
    ∀ pos, chainedFrom pos fs → consecutiveOffsets fs := by
  induction fs with
  | nil =>
    intro pos _ i h
    simp at h
  | cons f rest ih =>
    intro pos hch i h
    obtain ⟨h1, h2⟩ := hch
    cases i with
    | zero =>
      cases rest with
      | nil => simp at h
      | cons g rest2 =>
        obtain ⟨hg, _⟩ := h2
        simp only [List.get_cons_succ, List.get]
        omega
    | succ j =>
      have hj : j + 1 < rest.length := by simpa using h
      have := ih (f.pos + (f.size : Int)) h2 j hj
      simp only [List.get_cons_succ]
      exact this

theorem matchOptInt (o : Option Frame) (d : Int) :
    (match o with | some f => f.pos + (f.size : Int) | none => d) =
      (o.map (fun f => f.pos + (f.size : Int))).getD d := by
  cases o <;> rfl

theorem realignFrames_frames (t : TagData) :
    (realignFrames t).frames = (realignWalk TAG_HEADER_SIZE t.frames).2 := by
  unfold realignFrames clampPadding realignShift
  split <;> rfl

theorem realignFrames_padding_offset (t : TagData) :
    (realignFrames t).padding.offset =
      t.padding.offset + ((realignWalk TAG_HEADER_SIZE t.frames).1 - t.padding.offset) := by
  unfold realignFrames clampPadding realignShift
  split <;> rfl

theorem realignFrames_padding_size_nonneg (t : TagData) :
    0 ≤ (realignFrames t).padding.size := by
  unfold realignFrames clampPadding
  split
  · exact Int.le_refl 0
  next h => exact Int.not_lt.mp h

/-- After `realignFrames` (first variant) all three layout invariants hold,
for every starting state. -/
theorem realignFrames_invariant (t : TagData) :
    consecutiveOffsets (realignFrames t).frames ∧ paddingAtEnd (realignFrames t) ∧
      0 ≤ (realignFrames t).padding.size := by
  have hch := realignWalk_chained t.frames TAG_HEADER_SIZE
  have hend := realignWalk_end_eq_last t.frames TAG_HEADER_SIZE
  have hcons := chainedFrom_consecutive _ TAG_HEADER_SIZE hch
  refine ⟨?_, ?_, realignFrames_padding_size_nonneg t⟩
  · rw [realignFrames_frames]
    exact hcons
  · unfold paddingAtEnd
    rw [realignFrames_frames, realignFrames_padding_offset, matchOptInt, ← hend]
    ring

theorem setBufferFirst_map_pos_size (fs : List Frame) (id : String) (buffer : List Nat)
    (h : ∀ fr, fs.find? (fun f => f.id == id) = some fr → buffer.length = fr.size) :
    (setBufferFirst fs id buffer).map (fun f => (f.pos, (f.size : Int))) =
      fs.map (fun f => (f.pos, (f.size : Int))) := by
  induction fs with
  | nil => rfl
  | cons f rest ih =>
    by_cases hf : f.id == id
    · have hstep : List.find? (fun g => g.id == id) (f :: rest) = some f :=
        List.find?_cons_of_pos rest hf
      have hsz := h f hstep
      simp [setBufferFirst, hf, Frame.setBuffer, ← hsz]
    · have hstep : List.find? (fun g => g.id == id) (f :: rest) =
          List.find? (fun g => g.id == id) rest := List.find?_cons_of_neg rest hf
      have h2 : ∀ fr, rest.find? (fun f => f.id == id) = some fr → buffer.length = fr.size := by
        intro fr hfr
        exact h fr (hstep.trans hfr)
      simp [setBufferFirst, hf, ih h2]

theorem consecutiveOffsets_of_map_eq (fs1 fs2 : List Frame)
    (h : fs1.map (fun f => (f.pos, (f.size : Int))) = fs2.map (fun f => (f.pos, (f.size : Int))))
    (hc : consecutiveOffsets fs2) : consecutiveOffsets fs1 := by
  have hlen : fs1.length = fs2.length := by
    have := congrArg List.length h
    simpa using this
  intro i hi
  have hi2 : i + 1 < fs2.length := by omega
  have hget : ∀ j (hj1 : j < fs1.length),
      (fs1.get ⟨j, hj1⟩).pos = (fs2.get ⟨j, by omega⟩).pos ∧
        ((fs1.get ⟨j, hj1⟩).size : Int) = ((fs2.get ⟨j, by omega⟩).size : Int) := by
    intro j hj1
    have e1 := List.get_of_eq h ⟨j, by simpa using hj1⟩
    rw [List.get_map, List.get_map] at e1
    exact ⟨congrArg Prod.fst e1, congrArg Prod.snd e1⟩
  have h1 := hget (i + 1) hi
  have h0 := hget i (by omega)
  rw [h1.1, h0.1, h0.2]
  exact hc i hi2

theorem paddingAtEnd_of_map_eq (t1 t2 : TagData)
    (h : t1.frames.map (fun f => (f.pos, (f.size : Int))) =
      t2.frames.map (fun f => (f.pos, (f.size : Int))))
    (hoff : t1.padding.offset = t2.padding.offset)
    (hp : paddingAtEnd t2) : paddingAtEnd t1 := by
  unfold paddingAtEnd at hp ⊢
  rw [matchOptInt] at hp ⊢
  have hlast : Option.map (fun f => (f.pos, (f.size : Int))) t1.frames.getLast? =
      Option.map (fun f => (f.pos, (f.size : Int))) t2.frames.getLast? := by
    rw [← List.getLast?_map, ← List.getLast?_map, h]
  cases e1 : t1.frames.getLast? with
  | none =>
    cases e2 : t2.frames.getLast? with
    | none =>
      rw [e2] at hp
      rw [hoff]
      exact hp
    | some g =>
      rw [e1, e2] at hlast
      exact Option.noConfusion hlast
  | some f =>
    cases e2 : t2.frames.getLast? with
    | none =>
      rw [e1, e2] at hlast
      exact Option.noConfusion hlast
    | some g =>
      rw [e1, e2] at hlast
      have hl2 : (f.pos, (f.size : Int)) = (g.pos, (g.size : Int)) := Option.some.inj hlast
      have hpos : f.pos = g.pos := congrArg Prod.fst hl2
      have hsz : (f.size : Int) = (g.size : Int) := congrArg Prod.snd hl2
      rw [e2] at hp
      have hp2 : t2.padding.offset = g.pos + (g.size : Int) := hp
      show t1.padding.offset = f.pos + (f.size : Int)
      omega

/-- The three layout invariants of §8 of the spec, bundled. -/
def layoutInvariant (t : TagData) : Prop :=
  consecutiveOffsets t.frames ∧ paddingAtEnd t ∧ 0 ≤ t.padding.size

/-- C1: after construction by `TagData.noHeader` and after every mutation
operation (`allocateFrame`, `removeFrame`, and `reallocateFrame` on a state
already satisfying the invariants), every pair of consecutive frames obeys
`frames[i+1].pos = frames[i].pos + frames[i].size + FRAME_HEADER_SIZE`, the
padding offset equals the end of the last frame (or `TAG_HEADER_SIZE` when
no frames exist), and the padding size is nonnegative. -/
theorem tagdata_layout_invariants :
    layoutInvariant TagData.noHeader ∧
    (∀ t id buffer, layoutInvariant (allocateFrame t id buffer)) ∧
    (∀ t id, layoutInvariant (removeFrame t id)) ∧
    (∀ t id buffer, layoutInvariant t → layoutInvariant (reallocateFrame t id buffer)) := by
  refine ⟨⟨?_, ?_, ?_⟩, ?_, ?_, ?_⟩
  · intro i h
    simp [TagData.noHeader, TagData.make] at h
  · rfl
  · exact Int.le_refl 0
  · intro t id buffer
    exact realignFrames_invariant _
  · intro t id
    exact realignFrames_invariant _
  · intro t id buffer hinv
    unfold reallocateFrame
    cases hg : t.getFrame id with
    | none =>
      exact realignFrames_invariant _
    | some frame =>
      dsimp only
      by_cases hd : frame.data == buffer
      · rw [if_pos hd]
        exact hinv
      · rw [if_neg hd]
        by_cases hs : buffer.length ≠ frame.size
        · rw [if_pos hs]
          exact realignFrames_invariant _
        · rw [if_neg hs]
          have hlen : buffer.length = frame.size := by omega
          have hmap : (setBufferFirst t.frames id buffer).map (fun f => (f.pos, (f.size : Int))) =
              t.frames.map (fun f => (f.pos, (f.size : Int))) := by
            apply setBufferFirst_map_pos_size
            intro fr hfr
            have : some frame = some fr := by
              rw [← hg, ← hfr]; rfl
            have hfr2 : fr = frame := (Option.some.inj this).symm
            rw [hfr2]
            exact hlen
          obtain ⟨hc, hp, hz⟩ := hinv
          refine ⟨?_, ?_, hz⟩
          · exact consecutiveOffsets_of_map_eq _ _ hmap hc
          · exact paddingAtEnd_of_map_eq
              { t with frames := setBufferFirst t.frames id buffer, dirty := true } t hmap rfl hp

/-- Witness for the hypothesis-bearing part of C1: reallocating "TIT2" with
an equal-size different payload on a concrete aligned tag keeps the
invariants. -/
theorem tagdata_layout_invariants_witness :
    layoutInvariant
      (TagData.make 3 0 0 29 [⟨"TIT2", 20, 9, [0, 65, 66, 67, 68, 69, 70, 71, 72], 0, false⟩]
        ⟨29, 0⟩) ∧
    layoutInvariant
      (reallocateFrame
        (TagData.make 3 0 0 29 [⟨"TIT2", 20, 9, [0, 65, 66, 67, 68, 69, 70, 71, 72], 0, false⟩]
          ⟨29, 0⟩)
        "TIT2" [0, 72, 71, 70, 69, 68, 67, 66, 65]) := by
  have hinv : layoutInvariant
      (TagData.make 3 0 0 29 [⟨"TIT2", 20, 9, [0, 65, 66, 67, 68, 69, 70, 71, 72], 0, false⟩]
        ⟨29, 0⟩) := by
    refine ⟨?_, ?_, ?_⟩
    · intro i h
      simp [TagData.make] at h
    · rfl
    · exact Int.le_refl 0
  exact ⟨hinv, tagdata_layout_invariants.2.2.2 _ "TIT2" _ hinv⟩

theorem realignWalk_fixpoint (fs : List Frame) :
    ∀ pos, chainedFrom pos fs → realignWalk pos fs = (walkEnd pos fs, fs) := by
  induction fs with
  | nil => intro pos _; rfl
  | cons f rest ih =>
    intro pos hch
    obtain ⟨h1, h2⟩ := hch
    rw [h1] at h2
    have hf2 : ({ f with pos := pos + FRAME_HEADER_SIZE } : Frame) = f := by rw [← h1]
    simp [realignWalk, walkEnd, ih _ h2, hf2]

/-- C10: removing a frame id that occurs nowhere leaves the frame list, the
padding descriptor, the tag size and the rewrite flag unchanged but still
sets `dirty`, because `realignFrames` runs unconditionally; a subsequent
same-file save therefore performs a full tag write (it emits the tag header
and everything after it). -/
theorem removeFrame_absent_id (t : TagData) (id : String)
    (hch : chainedFrom TAG_HEADER_SIZE t.frames)
    (hoff : t.padding.offset = walkEnd TAG_HEADER_SIZE t.frames)
    (hsz : 0 ≤ t.padding.size)
    (hid : ∀ f ∈ t.frames, f.id ≠ id) :
    removeFrame t id = { t with dirty := true } ∧
      ∃ rest, (writeToFile (removeFrame t id) true).2 = WriteOp.tagHeader :: rest := by
  have hfil : t.frames.filter (fun f => f.id != id) = t.frames := by
    apply List.filter_eq_self.mpr
    intro f hf
    simpa using hid f hf
  have hre : removeFrame t id = realignFrames t := by
    unfold removeFrame
    rw [hfil]
  have hw : realignWalk TAG_HEADER_SIZE t.frames = (walkEnd TAG_HEADER_SIZE t.frames, t.frames) :=
    realignWalk_fixpoint t.frames _ hch
  have hrf : realignFrames t = { t with dirty := true } := by
    unfold realignFrames realignShift clampPadding
    rw [hw]
    have hd0 : walkEnd TAG_HEADER_SIZE t.frames - t.padding.offset = 0 := by omega
    simp only [hd0]
    rw [if_neg (by simpa using hsz)]
    have hpad : (⟨t.padding.offset + 0, t.padding.size - 0⟩ : PaddingD) = t.padding := by
      cases hp : t.padding
      simp
    simp [hpad]
  have hstate : removeFrame t id = { t with dirty := true } := hre.trans hrf
  refine ⟨hstate, ?_⟩
  rw [hstate]
  unfold writeToFile
  rw [if_neg (by simp)]
  exact ⟨_, rfl⟩

/-- Witness for C10 at a concrete aligned one-frame tag and an id that is
not present. -/
theorem removeFrame_absent_id_witness :
    removeFrame
        (TagData.make 3 0 0 29 [⟨"TIT2", 20, 9, [0, 65, 66, 67, 68, 69, 70, 71, 72], 0, false⟩]
          ⟨29, 0⟩) "TALB" =
      { TagData.make 3 0 0 29 [⟨"TIT2", 20, 9, [0, 65, 66, 67, 68, 69, 70, 71, 72], 0, false⟩]
          ⟨29, 0⟩ with dirty := true } := by
  have h := removeFrame_absent_id
    (TagData.make 3 0 0 29 [⟨"TIT2", 20, 9, [0, 65, 66, 67, 68, 69, 70, 71, 72], 0, false⟩]
      ⟨29, 0⟩) "TALB"
    (by constructor <;> simp [TagData.make, FRAME_HEADER_SIZE, TAG_HEADER_SIZE, chainedFrom])
    (by simp [TagData.make, walkEnd, TAG_HEADER_SIZE, FRAME_HEADER_SIZE])
    (by simp [TagData.make])
    (by intro f hf; simp [TagData.make] at hf; simp [hf])
  exact h.1

/-! ## Footer-vs-padding invariant (C8) and the save path (C9) -/

/-- The footer invariant of §8 of the spec:
`hasFooter ⇒ (major = 4 ∧ padding.size = 0)`. -/
def footerInv (t : TagData) : Prop :=
  t.hasFooter = true → t.major = 4 ∧ t.padding.size = 0

theorem checkFooter_major (t : TagData) : (checkFooter t).major = t.major := by
  unfold checkFooter
  split <;> rfl

theorem realignFramesV2_footerInv (t : TagData) (hm : t.hasFooter = true → t.major = 4) :
    footerInv (realignFramesV2 t) := by
  unfold realignFramesV2 clampOrFooter
  split
  · intro hf
    exact ⟨hm hf, rfl⟩
  next h1 =>
    split
    · intro hf
      simp at hf
    next h2 =>
      intro hf
      have hf0 : t.hasFooter = true := hf
      refine ⟨hm hf0, ?_⟩
      show t.padding.size -
        ((realignWalk TAG_HEADER_SIZE t.frames).1 - t.padding.offset) = 0
      have hs1 : ¬ ((realignShift t).padding.size < 0) := h1
      have hs2 : ¬ ((realignShift t).padding.size > 0 ∧ (realignShift t).hasFooter = true) := h2
      simp only [realignShift] at hs1 hs2
      by_cases hp : t.padding.size -
          ((realignWalk TAG_HEADER_SIZE t.frames).1 - t.padding.offset) > 0
      · exact absurd ⟨hp, hf0⟩ hs2
      · omega

theorem checkFooter_footerInv (t : TagData) (hm : t.hasFooter = true → t.major = 4)
    (hsz : 0 ≤ t.padding.size) : footerInv (checkFooter t) := by
  unfold checkFooter
  split
  · intro hf
    simp at hf
  next h =>
    intro hf
    have hf0 : t.hasFooter = true := hf
    refine ⟨hm hf0, ?_⟩
    by_cases hp : t.padding.size > 0
    · exact absurd ⟨hf0, hp⟩ h
    · omega

theorem checkFooter_idem (t : TagData) : checkFooter (checkFooter t) = checkFooter t := by
  unfold checkFooter
  split
  · rw [if_neg (by simp)]
  · rfl

/-- C8: after any padding-altering call in the current tagdata.js variant —
`realignFramesV2` reached through `allocateFrameV2`, `removeFrameV2` or
`reallocateFrameV2`, or `checkFooter` — a surviving footer implies major
version 4 and zero padding; and `checkFooter` is idempotent. -/
theorem footer_invariant_and_idem :
    (∀ t : TagData, (t.hasFooter = true → t.major = 4) → footerInv (realignFramesV2 t)) ∧
    (∀ t : TagData, (t.hasFooter = true → t.major = 4) → 0 ≤ t.padding.size →
      footerInv (checkFooter t)) ∧
    (∀ t id, (t.hasFooter = true → t.major = 4) → footerInv (removeFrameV2 t id)) ∧
    (∀ t id buffer, (t.hasFooter = true → t.major = 4) →
      footerInv (allocateFrameV2 t id buffer)) ∧
    (∀ t id buffer, (t.hasFooter = true → t.major = 4) → footerInv t →
      footerInv (reallocateFrameV2 t id buffer)) ∧
    (∀ t : TagData, checkFooter (checkFooter t) = checkFooter t) := by
  refine ⟨realignFramesV2_footerInv, checkFooter_footerInv, ?_, ?_, ?_, checkFooter_idem⟩
  · intro t id hm
    exact realignFramesV2_footerInv _ hm
  · intro t id buffer hm
    exact realignFramesV2_footerInv _ hm
  · intro t id buffer hm hinv
    unfold reallocateFrameV2
    cases hg : t.getFrame id with
    | none =>
      exact realignFramesV2_footerInv _ hm
    | some frame =>
      dsimp only
      by_cases hd : frame.data == buffer
      · rw [if_pos hd]
        exact hinv
      · rw [if_neg hd]
        by_cases hs : buffer.length ≠ frame.size
        · rw [if_pos hs]
          exact realignFramesV2_footerInv _ hm
        · rw [if_neg hs]
          exact hinv

/-- Witness for C8 at a concrete v2.4 tag with a footer and padding 3: after
`checkFooter` the footer is gone, so the invariant holds. -/
theorem footer_invariant_witness :
    footerInv (checkFooter (TagData.make 4 0 0x10 30 [] ⟨10, 3⟩)) ∧
      checkFooter (checkFooter (TagData.make 4 0 0x10 30 [] ⟨10, 3⟩)) =
        checkFooter (TagData.make 4 0 0x10 30 [] ⟨10, 3⟩) :=
  ⟨footer_invariant_and_idem.2.1 _ (fun _ => rfl) (by simp [TagData.make]),
    footer_invariant_and_idem.2.2.2.2.2 _⟩

/-- C9: a same-file save with a clean dirty flag performs no I/O and leaves
the state untouched; and because a same-file save clears `dirty`, a second
`save()` right after a successful one writes nothing. -/
theorem save_clean_noop_and_resave_noop :
    (∀ t : TagData, t.dirty = false → writeToFile t true = (t, [])) ∧
    (∀ t : TagData, writeToFile (writeToFile t true).1 true = ((writeToFile t true).1, [])) := by
  have h1 : ∀ t : TagData, t.dirty = false → writeToFile t true = (t, []) := by
    intro t hd
    unfold writeToFile
    rw [if_pos (by simp [hd])]
  refine ⟨h1, ?_⟩
  intro t
  by_cases hd : t.dirty = false
  · rw [h1 t hd]
    exact h1 t hd
  · have hdtrue : t.dirty = true := by
      revert hd
      cases t.dirty <;> simp
    have hdt : (writeToFile t true).1.dirty = false := by
      unfold writeToFile
      rw [if_neg (by simp [hdtrue])]
      simp
    exact h1 _ hdt

/-- Witness for C9 on the concrete clean tag produced by `TagData.noHeader`. -/
theorem save_clean_noop_witness :
    writeToFile TagData.noHeader true = (TagData.noHeader, []) :=
  save_clean_noop_and_resave_noop.1 TagData.noHeader rfl

/-! ## Codepage conversion (`src/cp.js`)

JavaScript strings are lists of UTF-16 code units.  The byte-level
conversions delegate to the Node `Buffer` platform primitives; these are
modelled here by their documented Unicode semantics: UTF-16LE as
little-endian code-unit pairs, UTF-8 as the standard encoding with surrogate
pairs combined and lone surrogates replaced by U+FFFD, and malformed bytes
decoded to U+FFFD one byte at a time. -/

/-- Models `Buffer.from(s, "utf16le")`: every code unit becomes two bytes,
low byte first. -/
def utf16leFromUnits : List Nat → List Nat
  | [] => []
  | u :: rest => u % 256 :: u / 256 % 256 :: utf16leFromUnits rest

/-- Models `buffer.toString("utf16le")`: byte pairs become code units, a
trailing lone byte is ignored. -/
def utf16leToUnits : List Nat → List Nat
  | b0 :: b1 :: rest => (b0 + 256 * b1) :: utf16leToUnits rest
  | _ => []

/-- UTF-8 bytes of a single code unit that is not part of a surrogate pair;
a lone surrogate encodes as U+FFFD (bytes EF BF BD). -/
def utf8EncOne (u : Nat) : List Nat :=
  if u < 0x80 then [u]
  else if u < 0x800 then [0xC0 + u / 64, 0x80 + u % 64]
  else if 0xD800 ≤ u ∧ u < 0xE000 then [0xEF, 0xBF, 0xBD]
  else [0xE0 + u / 0x1000, 0x80 + u / 64 % 64, 0x80 + u % 64]

/-- Models `Buffer.from(s, "utf8")`: surrogate pairs combine into one
four-byte sequence, everything else encodes unit by unit. -/
def utf8FromUnits : List Nat → List Nat
  | [] => []
  | [u] => utf8EncOne u
  | u :: u2 :: rest =>
    if 0xD800 ≤ u ∧ u < 0xDC00 ∧ 0xDC00 ≤ u2 ∧ u2 < 0xE000 then
      (0xF0 + (0x10000 + (u - 0xD800) * 0x400 + (u2 - 0xDC00)) / 0x40000) ::
        (0x80 + (0x10000 + (u - 0xD800) * 0x400 + (u2 - 0xDC00)) / 0x1000 % 64) ::
        (0x80 + (0x10000 + (u - 0xD800) * 0x400 + (u2 - 0xDC00)) / 64 % 64) ::
        (0x80 + (0x10000 + (u - 0xD800) * 0x400 + (u2 - 0xDC00)) % 64) ::
        utf8FromUnits rest
    else utf8EncOne u ++ utf8FromUnits (u2 :: rest)

/-- Fuelled UTF-8 decoder; one fuel unit is consumed per decoded scalar, so
any fuel at least the byte length suffices.  Models
`buffer.toString("utf8")`: well-formed sequences decode to their code units
(astral scalars split into surrogate pairs), malformed lead bytes decode to
U+FFFD. -/
def utf8DecodeFuel : Nat → List Nat → List Nat
  | 0, _ => []
  | _ + 1, [] => []
  | fuel + 1, b :: rest =>
    if b < 0x80 then b :: utf8DecodeFuel fuel rest
    else if b < 0xC0 then 0xFFFD :: utf8DecodeFuel fuel rest
    else if b < 0xE0 then
      match rest with
      | b2 :: rest2 =>
        if 0x80 ≤ b2 ∧ b2 < 0xC0 then
          ((b - 0xC0) * 64 + (b2 - 0x80)) :: utf8DecodeFuel fuel rest2
        else 0xFFFD :: utf8DecodeFuel fuel rest
      | [] => [0xFFFD]
    else if b < 0xF0 then
      match rest with
      | b2 :: b3 :: rest3 =>
        if 0x80 ≤ b2 ∧ b2 < 0xC0 ∧ 0x80 ≤ b3 ∧ b3 < 0xC0 then
          ((b - 0xE0) * 0x1000 + (b2 - 0x80) * 64 + (b3 - 0x80)) :: utf8DecodeFuel fuel rest3
        else 0xFFFD :: utf8DecodeFuel fuel rest
      | _ => [0xFFFD]
    else if b < 0xF8 then
      match rest with
      | b2 :: b3 :: b4 :: rest4 =>
        if 0x80 ≤ b2 ∧ b2 < 0xC0 ∧ 0x80 ≤ b3 ∧ b3 < 0xC0 ∧ 0x80 ≤ b4 ∧ b4 < 0xC0 then
          if 0x10000 ≤ (b - 0xF0) * 0x40000 + (b2 - 0x80) * 0x1000 + (b3 - 0x80) * 64 +
              (b4 - 0x80) then
            (0xD800 + ((b - 0xF0) * 0x40000 + (b2 - 0x80) * 0x1000 + (b3 - 0x80) * 64 +
                (b4 - 0x80) - 0x10000) / 0x400) ::
              (0xDC00 + ((b - 0xF0) * 0x40000 + (b2 - 0x80) * 0x1000 + (b3 - 0x80) * 64 +
                (b4 - 0x80) - 0x10000) % 0x400) ::
              utf8DecodeFuel fuel rest4
          else 0xFFFD :: utf8DecodeFuel fuel rest4
        else 0xFFFD :: utf8DecodeFuel fuel rest
      | _ => [0xFFFD]
    else 0xFFFD :: utf8DecodeFuel fuel rest

/-- Models `buffer.toString("utf8")`. -/
def utf8ToUnits (bytes : List Nat) : List Nat :=
  utf8DecodeFuel bytes.length bytes

/-- The byte-swap loop of the "utf-16be" decoder in cp.js: swaps byte pairs;
for an odd length the final byte of the target stays zero because the write
of `buffer[c]` to index `c+1` falls outside the target buffer. -/
def swapPairs : List Nat → List Nat
  | b0 :: b1 :: rest => b1 :: b0 :: swapPairs rest
  | [_] => [0]
  | [] => []

/-- Models `String(encoding).toLowerCase()` for the ASCII encoding names
used by cp.js. -/
def jsToLower (s : String) : String := String.mk (s.data.map Char.toLower)

/-- The decoder dispatch of `cp.fromBuffer` over the lowercased encoding
name, translated from the `from` dictionary of cp.js.  The "utf-16be" entry
byte-swaps its buffer and then calls `from["uft-16le"]` — a misspelled key
that is not an entry of the dictionary, so the lookup yields `undefined` and
the call raises a TypeError before any decoding happens. -/
def cpDecode (key : String) (b : List Nat) : Except JsError (List Nat) :=
  if key = "iso-8895-1" then .ok b
  else if key = "utf-16le" then .ok (utf16leToUnits b)
  else if key = "utf-16be" then .error .typeError
  else if key = "utf-8" then .ok (utf8ToUnits b)
  else .error .unsupportedEncoding

/-- `cp.fromBuffer(buffer, encoding)` from cp.js. -/
def cpFromBuffer (buffer : List Nat) (encoding : String) : Except JsError (List Nat) :=
  cpDecode (jsToLower encoding) buffer

/-- The encoder dispatch of `cp.fromString`; the `to` dictionary of cp.js
holds only "utf-16le" and "utf-8". -/
def cpEncode (key : String) (s : List Nat) : Except JsError (List Nat) :=
  if key = "utf-16le" then .ok (utf16leFromUnits s)
  else if key = "utf-8" then .ok (utf8FromUnits s)
  else .error .unsupportedEncoding

/-- `cp.fromString(string, encoding)` from cp.js. -/
def cpFromString (s : List Nat) (encoding : String) : Except JsError (List Nat) :=
  cpEncode (jsToLower encoding) s

/-- Modelled from the spec: "UTF-16BE: byte-swap into LE, then decode" — the
decoding of the swapped buffer as UTF-16LE that the spec mandates for the
codepage decoder. -/
def specUtf16beDecode (buffer : List Nat) : List Nat :=
  utf16leToUnits (swapPairs buffer)

/-- C6: the codepage decoder crashes with a TypeError on every
UTF-16BE input because of the misspelled "uft-16le" key, instead of
returning the byte-swapped UTF-16LE decode that the spec mandates; at the
concrete big-endian bytes of "A" the spec-mandated result is [0x41]. -/
theorem utf16be_decoder_diverges :
    cpFromBuffer [0x00, 0x41] "UTF-16BE" = .error .typeError ∧
      specUtf16beDecode [0x00, 0x41] = [0x41] := by
  constructor
  · rfl
  · rfl

/-! ## Decoder (`src/decoder.js`, current class-based variant) -/

/-- The encoding descriptor (`class Encoding` of decoder.js): name, BOM
bytes, double-byte flag and optional representative encoding byte. -/
structure BufEncoding where
  name : String
  bom : List Nat
  dbe : Bool
  encodingByte : Option Nat := none
  deriving DecidableEq, Repr

/-- The `UCEncodings` table of decoder.js. -/
def UCEncodings : List BufEncoding :=
  [⟨"UTF-16LE", [0xFF, 0xFE], true, some 0x01⟩,
   ⟨"UTF-16BE", [0xFE, 0xFF], true, none⟩,
   ⟨"UTF-8", [0xEF, 0xBB, 0xBF], false, none⟩,
   ⟨"UTF-8", [], false, some 0x03⟩]

/-- The `DEFAULT_ENCODINGS` table of decoder.js: UTF-16LE with BOM for v2.3
(encoding byte 0x01), UTF-8 without BOM for v2.4 (encoding byte 0x03).
Other majors have no entry. -/
def DEFAULT_ENCODINGS (major : Nat) : Option BufEncoding :=
  if major = 3 then some ⟨"UTF-16LE", [0xFF, 0xFE], true, some 0x01⟩
  else if major = 4 then some ⟨"UTF-8", [], false, some 0x03⟩
  else none

/-- `Decoder.getBufferEncoding` (decoder.js lines 749-781).  A missing
encoding byte (`undefined`) defaults to 0x01.  For 0x01 the first table
entry whose BOM is a prefix of the buffer wins; the last entry has an empty
BOM, so the lookup always succeeds (the `none` arm models the impossible
`undefined` result of `_.find`).  Bytes 0x02/0x03 are only valid from v2.4;
anything else throws. -/
def getBufferEncoding (version : Nat) (buffer : List Nat) (encodingByte : Option Nat) :
    Except JsError BufEncoding :=
  let eb := encodingByte.getD 0x01
  if eb = 0x00 then .ok ⟨"ISO-8895-1", [], false, none⟩
  else if eb = 0x01 then
    match UCEncodings.find? (fun e => e.bom.isPrefixOf buffer) with
    | some e => .ok e
    | none => .error .typeError
  else if 4 ≤ version ∧ eb = 0x02 then .ok ⟨"UTF-16BE", [], true, none⟩
  else if 4 ≤ version ∧ eb = 0x03 then .ok ⟨"UTF-8", [], false, none⟩
  else .error .unknownEncodingByte

/-- `internal.decodeString` (decoder.js lines 825-828): resolve the
encoding, strip the BOM, decode the rest. -/
def internalDecodeString (version : Nat) (buffer : List Nat) (encodingByte : Option Nat) :
    Except JsError (List Nat) := do
  let e ← getBufferEncoding version buffer encodingByte
  cpFromBuffer (buffer.drop e.bom.length) e.name

/-- `Decoder.decodeString` (decoder.js lines 620-631): byte 0 is the
encoding byte, the rest is content; any failure is rethrown as an
unsupported-buffer-encoding error. -/
def decodeString (version : Nat) (buffer : List Nat) : Except JsError (List Nat) :=
  match internalDecodeString version (buffer.drop 1) buffer.head? with
  | .ok s => .ok s
  | .error _ => .error .unsupportedBufferEncoding

/-- `internal.encodeString` (decoder.js lines 866-876): BOM then encoded
content. -/
def internalEncodeString (s : List Nat) (e : BufEncoding) : Except JsError (List Nat) := do
  let strBuffer ← cpFromString s e.name
  .ok (e.bom ++ strBuffer)

/-- `internal.encodeCString` (decoder.js lines 886-888): the string plus a
terminating NUL code unit. -/
def internalEncodeCString (s : List Nat) (e : BufEncoding) : Except JsError (List Nat) :=
  internalEncodeString (s ++ [0]) e

/-- `Decoder.encodeString` (decoder.js lines 791-803):
`[encoding byte][BOM][content]` in the version's default encoding. -/
def encodeString (version : Nat) (s : List Nat) : Except JsError (List Nat) :=
  match DEFAULT_ENCODINGS version with
  | none => .error .typeError
  | some e => do
    let bomBuf ← internalEncodeString s e
    .ok (e.encodingByte.getD 0 :: bomBuf)

/-- `internal.getStringEndPos` (decoder.js lines 898-912): linear scan for
the NUL terminator; in double-byte mode only even positions with two zero
bytes count, and a lone trailing zero byte is no terminator (the JS
comparison `buffer[c+1] == 0x00` is false for `undefined`). -/
def getStringEndPos : List Nat → Bool → Option Nat
  | [], _ => none
  | b :: rest, false => if b = 0 then some 0 else (getStringEndPos rest false).map (· + 1)
  | _ :: [], true => none
  | b0 :: b1 :: rest2, true =>
    if b0 = 0 ∧ b1 = 0 then some 0 else (getStringEndPos rest2 true).map (· + 2)

/-- The result record of `internal.decodeCString`. -/
structure CStr where
  str : List Nat
  nullPos : Nat
  pastNullPos : Nat
  deriving DecidableEq, Repr

/-- `buffer.slice(a, b)` on byte buffers. -/
def jsSlice (l : List Nat) (a b : Nat) : List Nat := (l.take b).drop a

/-- `internal.decodeCString` (decoder.js lines 839-855): find the NUL
terminator of the encoding's width, then decode the slice
`[bom.length, nullPos)`; without terminator fail. -/
def decodeCString (version : Nat) (buffer : List Nat) (encodingByte : Option Nat) :
    Except JsError CStr := do
  let e ← getBufferEncoding version buffer encodingByte
  match getStringEndPos buffer e.dbe with
  | none => .error .unterminatedString
  | some nullPos => do
    let s ← cpFromBuffer (jsSlice buffer e.bom.length nullPos) e.name
    .ok ⟨s, nullPos, nullPos + (if e.dbe then 2 else 1)⟩

/-- A comment frame value: language, short description, long text. -/
structure Comment where
  language : List Nat
  short : List Nat
  long : List Nat
  deriving DecidableEq, Repr

/-- `Decoder.encodeComment` (decoder.js lines 673-688):
`[encoding byte][language truncated to 3 and space-padded, written as
ascii][BOM? short NUL][BOM? long]` in the version's default encoding. -/
def encodeComment (version : Nat) (c : Comment) : Except JsError (List Nat) :=
  match DEFAULT_ENCODINGS version with
  | none => .error .typeError
  | some e => do
    let shortC ← internalEncodeCString c.short e
    let longC ← internalEncodeString c.long e
    .ok (e.encodingByte.getD 0 ::
      ((c.language.take 3 ++ List.replicate (3 - (c.language.take 3).length) 0x20).map
        (· % 256)) ++ shortC ++ longC)

/-- `Decoder.decodeComment` (decoder.js lines 639-665): byte 0 encoding
byte, bytes 1-3 the ascii language, the rest a NUL-terminated short comment
followed by the long comment (decoded with no encoding byte, i.e. BOM
detection).  The initial `getBufferEncoding` probe failure is rethrown. -/
def decodeComment (version : Nat) (buffer : List Nat) : Except JsError Comment :=
  match getBufferEncoding version (buffer.drop 4) buffer.head? with
  | .error _ => .error .unsupportedBufferEncoding
  | .ok _ => do
    let cData ← decodeCString version (buffer.drop 4) buffer.head?
    let longComment ← internalDecodeString version ((buffer.drop 4).drop cData.pastNullPos) none
    .ok ⟨((buffer.drop 1).take 3).map (· % 128), cData.str, longComment⟩

/-- C7: whenever the encoding is detected and the terminator of the
encoding's width is found at `nullPos`, `decodeCString` decodes exactly the
bytes in `[bom.length, nullPos)`; and when no terminator exists it fails
with the unterminated-string error. -/
theorem decodeCString_exact_slice (version : Nat) (buffer : List Nat)
    (encodingByte : Option Nat) (e : BufEncoding)
    (hE : getBufferEncoding version buffer encodingByte = .ok e) :
    (∀ p, getStringEndPos buffer e.dbe = some p →
      decodeCString version buffer encodingByte =
        (cpFromBuffer ((buffer.take p).drop e.bom.length) e.name).map
          (fun s => ⟨s, p, p + (if e.dbe then 2 else 1)⟩)) ∧
    (getStringEndPos buffer e.dbe = none →
      decodeCString version buffer encodingByte = .error .unterminatedString) := by
  constructor
  · intro p hp
    unfold decodeCString jsSlice
    rw [hE]
    show (match getStringEndPos buffer e.dbe with
      | none => (Except.error JsError.unterminatedString : Except JsError CStr)
      | some nullPos =>
        (cpFromBuffer ((buffer.take nullPos).drop e.bom.length) e.name).bind
          (fun s => Except.ok (CStr.mk s nullPos (nullPos + (if e.dbe then 2 else 1))))) =
      (cpFromBuffer ((buffer.take p).drop e.bom.length) e.name).map
        (fun s => CStr.mk s p (p + (if e.dbe then 2 else 1)))
    rw [hp]
    show (cpFromBuffer ((buffer.take p).drop e.bom.length) e.name).bind
        (fun s => Except.ok (CStr.mk s p (p + (if e.dbe then 2 else 1)))) = _
    cases hc : cpFromBuffer ((buffer.take p).drop e.bom.length) e.name with
    | ok s => rfl
    | error err => rfl
  · intro hp
    unfold decodeCString
    rw [hE]
    show (match getStringEndPos buffer e.dbe with
      | none => (Except.error JsError.unterminatedString : Except JsError CStr)
      | some nullPos =>
        (cpFromBuffer (jsSlice buffer e.bom.length nullPos) e.name).bind
          (fun s => Except.ok (CStr.mk s nullPos (nullPos + (if e.dbe then 2 else 1))))) =
      Except.error JsError.unterminatedString
    rw [hp]

/-- Witness for C7 at the ISO-8895-1 buffer [0x41, 0x00, 0x42]: terminator
at position 1, content slice [0x41]. -/
theorem decodeCString_exact_slice_witness :
    decodeCString 3 [0x41, 0x00, 0x42] (some 0) =
      (cpFromBuffer (([0x41, 0x00, 0x42].take 1).drop 0) "ISO-8895-1").map
        (fun s => ⟨s, 1, 2⟩) :=
  (decodeCString_exact_slice 3 [0x41, 0x00, 0x42] (some 0)
    ⟨"ISO-8895-1", [], false, none⟩ rfl).1 1 rfl

/-! ## Round-trip lemmas for the codepage conversions -/

/-- All entries are valid UTF-16 code units. -/
def validUnits (s : List Nat) : Prop := ∀ u ∈ s, u < 65536

/-- No lone surrogates: every high surrogate is followed by a low surrogate
and no low surrogate appears on its own.  Strings satisfying this are
exactly the ones expressible in UTF-8. -/
def wellPaired : List Nat → Bool
  | [] => true
  | [u] => !(decide (0xD800 ≤ u ∧ u < 0xE000))
  | u :: u2 :: rest =>
    if 0xD800 ≤ u ∧ u < 0xDC00 then
      decide (0xDC00 ≤ u2 ∧ u2 < 0xE000) && wellPaired rest
    else if 0xDC00 ≤ u ∧ u < 0xE000 then false
    else wellPaired (u2 :: rest)

theorem utf16le_roundtrip (s : List Nat) (h : validUnits s) :
    utf16leToUnits (utf16leFromUnits s) = s := by
  induction s with
  | nil => rfl
  | cons u rest ih =>
    have hu : u < 65536 := h u (by simp)
    have hrest : validUnits rest := fun v hv => h v (by simp [hv])
    simp only [utf16leFromUnits, utf16leToUnits, ih hrest]
    congr 1
    omega

theorem utf16leFromUnits_length (s : List Nat) :
    (utf16leFromUnits s).length = 2 * s.length := by
  induction s with
  | nil => rfl
  | cons u rest ih => simp [utf16leFromUnits, ih]; omega

theorem utf8DecodeFuel_nil : ∀ fuel, utf8DecodeFuel fuel [] = [] := by
  intro fuel
  cases fuel <;> rfl

/-- Decoding one encoded non-surrogate unit consumes exactly its bytes. -/
theorem utf8DecodeFuel_encOne (u : Nat) (hu : u < 65536)
    (hns : ¬(0xD800 ≤ u ∧ u < 0xE000)) (tail : List Nat) (fuel : Nat) :
    utf8DecodeFuel (fuel + 1) (utf8EncOne u ++ tail) = u :: utf8DecodeFuel fuel tail := by
  by_cases h1 : u < 0x80
  · have e : utf8EncOne u ++ tail = u :: tail := by rw [utf8EncOne, if_pos h1]; rfl
    rw [e]
    simp only [utf8DecodeFuel]
    rw [if_pos h1]
  · by_cases h2 : u < 0x800
    · have e : utf8EncOne u ++ tail = (0xC0 + u / 64) :: (0x80 + u % 64) :: tail := by
        rw [utf8EncOne, if_neg h1, if_pos h2]; rfl
      rw [e]
      simp only [utf8DecodeFuel]
      rw [if_neg (by omega), if_neg (by omega), if_pos (by omega), if_pos (by omega)]
      congr 1
      omega
    · have e : utf8EncOne u ++ tail =
          (0xE0 + u / 0x1000) :: (0x80 + u / 64 % 64) :: (0x80 + u % 64) :: tail := by
        rw [utf8EncOne, if_neg h1, if_neg h2, if_neg hns]; rfl
      rw [e]
      simp only [utf8DecodeFuel]
      rw [if_neg (by omega), if_neg (by omega), if_neg (by omega), if_pos (by omega),
        if_pos (by omega)]
      congr 1
      omega

/-- Decoding one encoded surrogate pair consumes exactly its four bytes. -/
theorem utf8DecodeFuel_encPair (u u2 : Nat) (hu : 0xD800 ≤ u ∧ u < 0xDC00)
    (hu2 : 0xDC00 ≤ u2 ∧ u2 < 0xE000) (tail : List Nat) (fuel : Nat) :
    utf8DecodeFuel (fuel + 1)
        ((0xF0 + (0x10000 + (u - 0xD800) * 0x400 + (u2 - 0xDC00)) / 0x40000) ::
          (0x80 + (0x10000 + (u - 0xD800) * 0x400 + (u2 - 0xDC00)) / 0x1000 % 64) ::
          (0x80 + (0x10000 + (u - 0xD800) * 0x400 + (u2 - 0xDC00)) / 64 % 64) ::
          (0x80 + (0x10000 + (u - 0xD800) * 0x400 + (u2 - 0xDC00)) % 64) :: tail) =
      u :: u2 :: utf8DecodeFuel fuel tail := by
  simp only [utf8DecodeFuel]
  rw [if_neg (by omega), if_neg (by omega), if_neg (by omega), if_neg (by omega),
    if_pos (by omega), if_pos (by omega), if_pos (by omega)]
  rw [List.cons_eq_cons, List.cons_eq_cons]
  exact ⟨by omega, by omega, rfl⟩

/-- Round trip of the UTF-8 conversion, with any fuel of at least the unit
count. -/
theorem utf8_fuel_roundtrip (s : List Nat) :
    ∀ fuel, validUnits s → wellPaired s = true → s.length ≤ fuel →
      utf8DecodeFuel fuel (utf8FromUnits s) = s := by
  induction s using utf8FromUnits.induct with
  | case1 =>
    intro fuel _ _ _
    rw [show utf8FromUnits [] = [] from rfl, utf8DecodeFuel_nil]
  | case2 u =>
    intro fuel hv hw hl
    have hu : u < 65536 := hv u (by simp)
    have hns : ¬(0xD800 ≤ u ∧ u < 0xE000) := by
      simp only [wellPaired, Bool.not_eq_true', decide_eq_false_iff_not] at hw
      exact hw
    obtain ⟨k, rfl⟩ : ∃ k, fuel = k + 1 := ⟨fuel - 1, by simp at hl; omega⟩
    rw [show utf8FromUnits [u] = utf8EncOne u ++ [] by simp [utf8FromUnits]]
    rw [utf8DecodeFuel_encOne u hu hns [] k, utf8DecodeFuel_nil]
  | case3 u u2 rest hp ih =>
    intro fuel hv hw hl
    have hvr : validUnits rest := fun v hv2 => hv v (by simp [hv2])
    have hwr : wellPaired rest = true := by
      simp only [wellPaired, if_pos (show 0xD800 ≤ u ∧ u < 0xDC00 by omega),
        Bool.and_eq_true] at hw
      exact hw.2
    obtain ⟨k, rfl⟩ : ∃ k, fuel = k + 1 := ⟨fuel - 1, by simp at hl; omega⟩
    simp only [utf8FromUnits]
    rw [if_pos hp]
    rw [utf8DecodeFuel_encPair u u2 (by omega) (by omega) _ k]
    rw [ih k hvr hwr (by simp at hl ⊢; omega)]
  | case4 u u2 rest hnp ih =>
    intro fuel hv hw hl
    have hu : u < 65536 := hv u (by simp)
    have hv2 : validUnits (u2 :: rest) := fun v hvv => hv v (by simp at hvv ⊢; tauto)
    have hns : ¬(0xD800 ≤ u ∧ u < 0xE000) := by
      intro hcon
      by_cases hhi : 0xD800 ≤ u ∧ u < 0xDC00
      · simp only [wellPaired, if_pos hhi, Bool.and_eq_true, decide_eq_true_eq] at hw
        exact hnp ⟨hhi.1, hhi.2, hw.1⟩
      · have hlo : 0xDC00 ≤ u ∧ u < 0xE000 := by omega
        simp only [wellPaired, if_neg hhi, if_pos hlo] at hw
        exact Bool.false_ne_true hw
    have hw2 : wellPaired (u2 :: rest) = true := by
      have hhi : ¬(0xD800 ≤ u ∧ u < 0xDC00) := by omega
      have hlo : ¬(0xDC00 ≤ u ∧ u < 0xE000) := by omega
      simp only [wellPaired, if_neg hhi, if_neg hlo] at hw
      exact hw
    obtain ⟨k, rfl⟩ : ∃ k, fuel = k + 1 := ⟨fuel - 1, by simp at hl; omega⟩
    simp only [utf8FromUnits]
    rw [if_neg hnp]
    rw [utf8DecodeFuel_encOne u hu hns _ k]
    rw [ih k hv2 hw2 (by simp at hl ⊢; omega)]

theorem utf8EncOne_length_pos (u : Nat) : 1 ≤ (utf8EncOne u).length := by
  unfold utf8EncOne
  split
  · simp
  · split
    · simp
    · split <;> simp

theorem utf8FromUnits_length (s : List Nat) : s.length ≤ (utf8FromUnits s).length := by
  induction s using utf8FromUnits.induct with
  | case1 => simp [utf8FromUnits]
  | case2 u =>
    have := utf8EncOne_length_pos u
    simp only [utf8FromUnits]
    simpa using this
  | case3 u u2 rest hp ih =>
    simp only [utf8FromUnits]
    rw [if_pos hp]
    simp
    omega
  | case4 u u2 rest hnp ih =>
    simp only [utf8FromUnits]
    rw [if_neg hnp]
    have := utf8EncOne_length_pos u
    simp at ih ⊢
    omega

/-- UTF-8 of a well-formed string decodes back (the `utf8ToUnits` form). -/
theorem utf8_roundtrip (s : List Nat) (hv : validUnits s) (hw : wellPaired s = true) :
    utf8ToUnits (utf8FromUnits s) = s :=
  utf8_fuel_roundtrip s _ hv hw (utf8FromUnits_length s)

/-- BOM detection finds UTF-16LE on a buffer starting FF FE. -/
theorem getBufferEncoding_LE (version : Nat) (l : List Nat) :
    getBufferEncoding version (0xFF :: 0xFE :: l) (some 1) =
      .ok ⟨"UTF-16LE", [0xFF, 0xFE], true, some 0x01⟩ := by
  simp [getBufferEncoding, UCEncodings, List.find?, List.isPrefixOf]

/-- C3: `decode_string (encode_string s) = s` for every string expressible in
the default encoding, for both majors; v2.3 encodes as UTF-16LE with BOM
FF FE under encoding byte 0x01, v2.4 as UTF-8 without BOM under encoding
byte 0x03. -/
theorem string_codec_roundtrip :
    (∀ s : List Nat, validUnits s →
      encodeString 3 s = .ok (0x01 :: 0xFF :: 0xFE :: utf16leFromUnits s) ∧
      (encodeString 3 s).bind (decodeString 3) = .ok s) ∧
    (∀ s : List Nat, validUnits s → wellPaired s = true →
      encodeString 4 s = .ok (0x03 :: utf8FromUnits s) ∧
      (encodeString 4 s).bind (decodeString 4) = .ok s) := by
  constructor
  · intro s hv
    have henc : encodeString 3 s = .ok (0x01 :: 0xFF :: 0xFE :: utf16leFromUnits s) := rfl
    refine ⟨henc, ?_⟩
    rw [henc]
    have hi : internalDecodeString 3 (0xFF :: 0xFE :: utf16leFromUnits s) (some 1) =
        .ok (utf16leToUnits (utf16leFromUnits s)) := by
      unfold internalDecodeString
      rw [getBufferEncoding_LE]
      rfl
    show decodeString 3 (0x01 :: 0xFF :: 0xFE :: utf16leFromUnits s) = .ok s
    unfold decodeString
    show (match internalDecodeString 3 (0xFF :: 0xFE :: utf16leFromUnits s) (some 1) with
      | .ok r => Except.ok r
      | .error _ => (Except.error JsError.unsupportedBufferEncoding :
          Except JsError (List Nat))) = Except.ok s
    rw [hi, utf16le_roundtrip s hv]
  · intro s hv hw
    have henc : encodeString 4 s = .ok (0x03 :: utf8FromUnits s) := rfl
    refine ⟨henc, ?_⟩
    rw [henc]
    have hi : internalDecodeString 4 (utf8FromUnits s) (some 3) =
        .ok (utf8ToUnits (utf8FromUnits s)) := by
      unfold internalDecodeString
      rw [show getBufferEncoding 4 (utf8FromUnits s) (some 3) =
        .ok ⟨"UTF-8", [], false, none⟩ from rfl]
      rfl
    show decodeString 4 (0x03 :: utf8FromUnits s) = .ok s
    unfold decodeString
    show (match internalDecodeString 4 (utf8FromUnits s) (some 3) with
      | .ok r => Except.ok r
      | .error _ => (Except.error JsError.unsupportedBufferEncoding :
          Except JsError (List Nat))) = Except.ok s
    rw [hi, utf8_roundtrip s hv hw]

/-- Witness for C3 on the concrete string "Hi" (units [72, 105]) in both
versions. -/
theorem string_codec_roundtrip_witness :
    (encodeString 3 [72, 105]).bind (decodeString 3) = .ok [72, 105] ∧
      (encodeString 4 [72, 105]).bind (decodeString 4) = .ok [72, 105] :=
  ⟨(string_codec_roundtrip.1 [72, 105] (by intro u hu; simp at hu; omega)).2,
    (string_codec_roundtrip.2 [72, 105] (by intro u hu; simp at hu; omega) (by decide)).2⟩

/-! ## Comment codec round trip (C4) -/

theorem not_prefix2_head (a b x : Nat) (xs : List Nat) (h : x ≠ a) :
    [a, b].isPrefixOf (x :: xs) = false := by
  have hb : (a == x) = false := beq_eq_false_iff_ne.mpr (fun hh => h hh.symm)
  simp [List.isPrefixOf, hb]

theorem not_prefix3_head (a b c x : Nat) (xs : List Nat) (h : x ≠ a) :
    [a, b, c].isPrefixOf (x :: xs) = false := by
  have hb : (a == x) = false := beq_eq_false_iff_ne.mpr (fun hh => h hh.symm)
  simp [List.isPrefixOf, hb]

theorem encOne_not_bom (u : Nat) (hu : u < 65536) (hns : ¬(0xD800 ≤ u ∧ u < 0xE000))
    (hne : u ≠ 0xFEFF) (tail : List Nat) :
    [0xFF, 0xFE].isPrefixOf (utf8EncOne u ++ tail) = false ∧
    [0xFE, 0xFF].isPrefixOf (utf8EncOne u ++ tail) = false ∧
    [0xEF, 0xBB, 0xBF].isPrefixOf (utf8EncOne u ++ tail) = false := by
  unfold utf8EncOne
  by_cases h1 : u < 0x80
  · rw [if_pos h1]
    exact ⟨not_prefix2_head _ _ _ _ (by omega), not_prefix2_head _ _ _ _ (by omega),
      not_prefix3_head _ _ _ _ _ (by omega)⟩
  · by_cases h2 : u < 0x800
    · rw [if_neg h1, if_pos h2]
      exact ⟨not_prefix2_head _ _ _ _ (by omega), not_prefix2_head _ _ _ _ (by omega),
        not_prefix3_head _ _ _ _ _ (by omega)⟩
    · rw [if_neg h1, if_neg h2, if_neg hns]
      refine ⟨not_prefix2_head _ _ _ _ (by omega), not_prefix2_head _ _ _ _ (by omega), ?_⟩
      cases hpre : [0xEF, 0xBB, 0xBF].isPrefixOf
          ((0xE0 + u / 0x1000) :: (0x80 + u / 64 % 64) :: (0x80 + u % 64) :: tail) with
      | false => exact hpre
      | true =>
        exfalso
        simp only [List.isPrefixOf, Bool.and_eq_true, beq_iff_eq] at hpre
        omega

theorem utf8_not_bom (u : Nat) (rest : List Nat) (hu : u < 65536)
    (hw : wellPaired (u :: rest) = true) (hne : u ≠ 0xFEFF) :
    [0xFF, 0xFE].isPrefixOf (utf8FromUnits (u :: rest)) = false ∧
    [0xFE, 0xFF].isPrefixOf (utf8FromUnits (u :: rest)) = false ∧
    [0xEF, 0xBB, 0xBF].isPrefixOf (utf8FromUnits (u :: rest)) = false := by
  cases rest with
  | nil =>
    have hns : ¬(0xD800 ≤ u ∧ u < 0xE000) := by
      simp only [wellPaired, Bool.not_eq_true', decide_eq_false_iff_not] at hw
      exact hw
    rw [show utf8FromUnits [u] = utf8EncOne u ++ [] by simp [utf8FromUnits]]
    exact encOne_not_bom u hu hns hne []
  | cons u2 r2 =>
    by_cases hp : 0xD800 ≤ u ∧ u < 0xDC00 ∧ 0xDC00 ≤ u2 ∧ u2 < 0xE000
    · simp only [utf8FromUnits]
      rw [if_pos hp]
      exact ⟨not_prefix2_head _ _ _ _ (by omega), not_prefix2_head _ _ _ _ (by omega),
        not_prefix3_head _ _ _ _ _ (by omega)⟩
    · have hns : ¬(0xD800 ≤ u ∧ u < 0xE000) := by
        intro hcon
        by_cases hhi : 0xD800 ≤ u ∧ u < 0xDC00
        · simp only [wellPaired, if_pos hhi, Bool.and_eq_true, decide_eq_true_eq] at hw
          exact hp ⟨hhi.1, hhi.2, hw.1⟩
        · have hlo : 0xDC00 ≤ u ∧ u < 0xE000 := by omega
          simp only [wellPaired, if_neg hhi, if_pos hlo] at hw
          exact Bool.false_ne_true hw
      simp only [utf8FromUnits]
      rw [if_neg hp]
      exact encOne_not_bom u hu hns hne _

/-- BOM detection on UTF-8 bytes of a well-formed string not starting with
U+FEFF falls through to the empty-BOM UTF-8 entry. -/
theorem find_empty_bom (long : List Nat) (hv : validUnits long)
    (hw : wellPaired long = true) (hh : long.head? ≠ some 0xFEFF) :
    UCEncodings.find? (fun e => e.bom.isPrefixOf (utf8FromUnits long)) =
      some ⟨"UTF-8", [], false, some 0x03⟩ := by
  cases long with
  | nil => simp [utf8FromUnits, UCEncodings, List.find?, List.isPrefixOf]
  | cons u rest =>
    have hu : u < 65536 := hv u (by simp)
    have hne : u ≠ 0xFEFF := fun h => hh (by simp [h])
    obtain ⟨h1, h2, h3⟩ := utf8_not_bom u rest hu hw hne
    simp [UCEncodings, List.find?, h1, h2, h3, List.isPrefixOf]

theorem utf16leFromUnits_append (a b : List Nat) :
    utf16leFromUnits (a ++ b) = utf16leFromUnits a ++ utf16leFromUnits b := by
  induction a with
  | nil => rfl
  | cons u rest ih => simp [utf16leFromUnits, ih]

theorem utf8FromUnits_append (a : List Nat) :
    ∀ b, wellPaired a = true →
      utf8FromUnits (a ++ b) = utf8FromUnits a ++ utf8FromUnits b := by
  induction a using utf8FromUnits.induct with
  | case1 => intro b _; rfl
  | case2 u =>
    intro b hw
    have hns : ¬(0xD800 ≤ u ∧ u < 0xE000) := by
      simp only [wellPaired, Bool.not_eq_true', decide_eq_false_iff_not] at hw
      exact hw
    cases b with
    | nil => simp [utf8FromUnits]
    | cons b1 b2 =>
      show utf8FromUnits (u :: b1 :: b2) = utf8EncOne u ++ utf8FromUnits (b1 :: b2)
      simp only [utf8FromUnits]
      rw [if_neg (by intro hcon; exact hns ⟨hcon.1, by omega⟩)]
  | case3 u u2 rest hp ih =>
    intro b hw
    have hwr : wellPaired rest = true := by
      simp only [wellPaired, if_pos (show 0xD800 ≤ u ∧ u < 0xDC00 by omega),
        Bool.and_eq_true] at hw
      exact hw.2
    show utf8FromUnits (u :: u2 :: (rest ++ b)) = utf8FromUnits (u :: u2 :: rest) ++ _
    simp only [utf8FromUnits]
    rw [if_pos hp, if_pos hp, ih b hwr]
    simp
  | case4 u u2 rest hnp ih =>
    intro b hw
    have hw2 : wellPaired (u2 :: rest) = true := by
      have hns : ¬(0xD800 ≤ u ∧ u < 0xE000) := by
        intro hcon
        by_cases hhi : 0xD800 ≤ u ∧ u < 0xDC00
        · simp only [wellPaired, if_pos hhi, Bool.and_eq_true, decide_eq_true_eq] at hw
          exact hnp ⟨hhi.1, hhi.2, hw.1⟩
        · have hlo : 0xDC00 ≤ u ∧ u < 0xE000 := by omega
          simp only [wellPaired, if_neg hhi, if_pos hlo] at hw
          exact Bool.false_ne_true hw
      simp only [wellPaired, if_neg (show ¬(0xD800 ≤ u ∧ u < 0xDC00) by omega),
        if_neg (show ¬(0xDC00 ≤ u ∧ u < 0xE000) by omega)] at hw
      exact hw
    show utf8FromUnits (u :: u2 :: (rest ++ b)) = utf8FromUnits (u :: u2 :: rest) ++ _
    simp only [utf8FromUnits]
    rw [if_neg hnp, if_neg hnp]
    rw [show u2 :: (rest ++ b) = (u2 :: rest) ++ b from rfl, ih b hw2]
    simp

theorem map_mod_id (l : List Nat) (m : Nat) (h : ∀ b ∈ l, b < m) : l.map (· % m) = l := by
  induction l with
  | nil => rfl
  | cons a rest ih =>
    have ha : a % m = a := Nat.mod_eq_of_lt (h a (by simp))
    simp only [List.map, ha, ih (fun b hb => h b (by simp [hb]))]

/-- The double-byte terminator scan over UTF-16LE content with no NUL unit
finds the terminator right after the content. -/
theorem endPos_utf16 (short : List Nat) (hv : validUnits short) (hns : (0 : Nat) ∉ short) :
    ∀ tail, getStringEndPos (utf16leFromUnits short ++ (0 :: 0 :: tail)) true =
      some (2 * short.length) := by
  induction short with
  | nil =>
    intro tail
    simp [utf16leFromUnits, getStringEndPos]
  | cons u rest ih =>
    intro tail
    have hu : u < 65536 := hv u (by simp)
    have hu0 : u ≠ 0 := fun h => hns (by simp [← h])
    have hvr : validUnits rest := fun v hv2 => hv v (by simp [hv2])
    have hnr : (0 : Nat) ∉ rest := fun h => hns (by simp [h])
    show getStringEndPos (u % 256 :: u / 256 % 256 ::
      (utf16leFromUnits rest ++ (0 :: 0 :: tail))) true = _
    simp only [getStringEndPos]
    rw [if_neg (by omega), ih hvr hnr tail]
    show some (2 * rest.length + 2) = some (2 * (rest.length + 1))
    exact congrArg some (by omega)

theorem getBufferEncoding_LE_none (version : Nat) (l : List Nat) :
    getBufferEncoding version (0xFF :: 0xFE :: l) none =
      .ok ⟨"UTF-16LE", [0xFF, 0xFE], true, some 0x01⟩ := by
  simp [getBufferEncoding, UCEncodings, List.find?, List.isPrefixOf]

theorem internal_decode_LE_none (long : List Nat) (hv : validUnits long) :
    internalDecodeString 3 (0xFF :: 0xFE :: utf16leFromUnits long) none = .ok long := by
  unfold internalDecodeString
  rw [getBufferEncoding_LE_none]
  show Except.ok (utf16leToUnits (utf16leFromUnits long)) = _
  rw [utf16le_roundtrip long hv]

theorem endPos_data3 (short : List Nat) (hv : validUnits short) (hns : (0 : Nat) ∉ short)
    (tail : List Nat) :
    getStringEndPos (0xFF :: 0xFE :: (utf16leFromUnits short ++ (0 :: 0 :: tail))) true =
      some (2 + 2 * short.length) := by
  simp only [getStringEndPos]
  rw [if_neg (by omega), endPos_utf16 short hv hns tail]
  show some (2 * short.length + 2) = some (2 + 2 * short.length)
  exact congrArg some (by omega)

theorem take_E16 (short : List Nat) (tail : List Nat) :
    (utf16leFromUnits short ++ tail).take (2 * short.length) = utf16leFromUnits short := by
  rw [show 2 * short.length = (utf16leFromUnits short).length from
    (utf16leFromUnits_length short).symm]
  exact List.take_left _ _

theorem drop_E16 (short : List Nat) (tail : List Nat) :
    (utf16leFromUnits short ++ tail).drop (2 * short.length) = tail := by
  rw [show 2 * short.length = (utf16leFromUnits short).length from
    (utf16leFromUnits_length short).symm]
  exact List.drop_left _ _

theorem decodeCString_data3 (short : List Nat) (hv : validUnits short)
    (hns : (0 : Nat) ∉ short) (tail : List Nat) :
    decodeCString 3 (0xFF :: 0xFE :: (utf16leFromUnits short ++ (0 :: 0 :: tail))) (some 1) =
      .ok ⟨short, 2 + 2 * short.length, 2 + 2 * short.length + 2⟩ := by
  unfold decodeCString
  rw [getBufferEncoding_LE]
  show (match getStringEndPos (0xFF :: 0xFE ::
      (utf16leFromUnits short ++ (0 :: 0 :: tail))) true with
    | none => (Except.error JsError.unterminatedString : Except JsError CStr)
    | some nullPos =>
      (cpFromBuffer (jsSlice (0xFF :: 0xFE :: (utf16leFromUnits short ++ (0 :: 0 :: tail)))
          2 nullPos) "UTF-16LE").bind
        (fun s => Except.ok (CStr.mk s nullPos (nullPos + 2)))) = _
  rw [endPos_data3 short hv hns tail]
  have hslice : jsSlice (0xFF :: 0xFE :: (utf16leFromUnits short ++ (0 :: 0 :: tail)))
      2 (2 + 2 * short.length) = utf16leFromUnits short := by
    unfold jsSlice
    rw [show 2 + 2 * short.length = 2 * short.length + 1 + 1 from by omega]
    rw [List.take_succ_cons, List.take_succ_cons]
    show (utf16leFromUnits short ++ (0 :: 0 :: tail)).take (2 * short.length) = _
    rw [take_E16]
  show (cpFromBuffer (jsSlice (0xFF :: 0xFE :: (utf16leFromUnits short ++ (0 :: 0 :: tail)))
      2 (2 + 2 * short.length)) "UTF-16LE").bind
    (fun s => Except.ok (CStr.mk s (2 + 2 * short.length) (2 + 2 * short.length + 2))) = _
  rw [hslice]
  show Except.ok (CStr.mk (utf16leToUnits (utf16leFromUnits short)) (2 + 2 * short.length)
    (2 + 2 * short.length + 2)) = _
  rw [utf16le_roundtrip short hv]

theorem drop_data3 (short : List Nat) (tail : List Nat) :
    (0xFF :: 0xFE :: (utf16leFromUnits short ++ (0 :: 0 :: tail))).drop
      (2 + 2 * short.length + 2) = tail := by
  rw [show 2 + 2 * short.length + 2 = 2 * short.length + 2 + 1 + 1 from by omega]
  rw [List.drop_succ_cons, List.drop_succ_cons]
  show (utf16leFromUnits short ++ (0 :: 0 :: tail)).drop (2 * short.length + 2) = tail
  rw [← List.drop_drop, drop_E16]
  rfl

theorem decodeComment_cons (version eb : Nat) (lang d short long : List Nat) (p q : Nat)
    (hlang : lang.length = 3) (hla : ∀ b ∈ lang, b < 128)
    (hE : ∃ e, getBufferEncoding version d (some eb) = .ok e)
    (hC : decodeCString version d (some eb) = .ok ⟨short, p, q⟩)
    (hL : internalDecodeString version (d.drop q) none = .ok long) :
    decodeComment version (eb :: (lang ++ d)) = .ok ⟨lang, short, long⟩ := by
  obtain ⟨e, hE⟩ := hE
  unfold decodeComment
  have hh : (eb :: (lang ++ d)).head? = some eb := rfl
  have hd4 : (eb :: (lang ++ d)).drop 4 = d := by
    show (lang ++ d).drop 3 = d
    rw [show (3 : Nat) = lang.length from hlang.symm]
    exact List.drop_left _ _
  have hlg : (((eb :: (lang ++ d)).drop 1).take 3).map (· % 128) = lang := by
    show ((lang ++ d).take 3).map (· % 128) = lang
    rw [show (3 : Nat) = lang.length from hlang.symm, List.take_left]
    exact map_mod_id lang 128 hla
  rw [hh, hd4, hE, hlg]
  show (decodeCString version d (some eb)).bind (fun cData =>
    (internalDecodeString version (d.drop cData.pastNullPos) none).bind (fun longComment =>
      Except.ok (Comment.mk lang cData.str longComment))) = Except.ok (Comment.mk lang short long)
  rw [hC]
  show (internalDecodeString version (d.drop q) none).bind
    (fun longComment => Except.ok (Comment.mk lang short longComment)) =
      Except.ok (Comment.mk lang short long)
  rw [hL]
  rfl

theorem encodeComment3_eq (lang short long : List Nat) (hlang : lang.length = 3)
    (hla : ∀ b ∈ lang, b < 128) :
    encodeComment 3 ⟨lang, short, long⟩ =
      .ok (0x01 :: (lang ++ (0xFF :: 0xFE :: (utf16leFromUnits short ++
        (0 :: 0 :: (0xFF :: 0xFE :: utf16leFromUnits long)))))) := by
  have h0 : encodeComment 3 ⟨lang, short, long⟩ =
      .ok (0x01 ::
        ((lang.take 3 ++ List.replicate (3 - (lang.take 3).length) 0x20).map (· % 256)) ++
        ([0xFF, 0xFE] ++ utf16leFromUnits (short ++ [0])) ++
        ([0xFF, 0xFE] ++ utf16leFromUnits long)) := rfl
  rw [h0]
  have ht : lang.take 3 = lang := by
    rw [show (3 : Nat) = lang.length from hlang.symm]
    exact List.take_length lang
  rw [ht, hlang, Nat.sub_self, List.replicate_zero, List.append_nil]
  rw [map_mod_id lang 256 (fun b hb => lt_trans (hla b hb) (by norm_num))]
  rw [utf16leFromUnits_append short [0]]
  show Except.ok ((0x01 :: lang ++ ([0xFF, 0xFE] ++ (utf16leFromUnits short ++ [0, 0]))) ++
    ([0xFF, 0xFE] ++ utf16leFromUnits long)) = _
  simp [List.append_assoc]

theorem utf8EncOne_nonzero (u : Nat) (hu : u ≠ 0) : ∀ b ∈ utf8EncOne u, b ≠ 0 := by
  intro b hb
  unfold utf8EncOne at hb
  split at hb
  · simp only [List.mem_singleton] at hb
    omega
  · split at hb
    · simp only [List.mem_cons, List.not_mem_nil, or_false] at hb
      rcases hb with h | h <;> omega
    · split at hb
      · simp only [List.mem_cons, List.not_mem_nil, or_false] at hb
        rcases hb with h | h | h <;> omega
      · simp only [List.mem_cons, List.not_mem_nil, or_false] at hb
        rcases hb with h | h | h <;> omega

theorem utf8_nonzero (s : List Nat) :
    (0 : Nat) ∉ s → ∀ b ∈ utf8FromUnits s, b ≠ 0 := by
  induction s using utf8FromUnits.induct with
  | case1 =>
    intro _ b hb
    simp [utf8FromUnits] at hb
  | case2 u =>
    intro h0 b hb
    exact utf8EncOne_nonzero u (fun h => h0 (by simp [h])) b hb
  | case3 u u2 rest hp ih =>
    intro h0 b hb
    simp only [utf8FromUnits, if_pos hp, List.mem_cons] at hb
    rcases hb with h | h | h | h | h
    · omega
    · omega
    · omega
    · omega
    · exact ih (fun hc => h0 (by simp [hc])) b h
  | case4 u u2 rest hnp ih =>
    intro h0 b hb
    simp only [utf8FromUnits, if_neg hnp] at hb
    rcases List.mem_append.mp hb with h | h
    · exact utf8EncOne_nonzero u (fun hc => h0 (by simp [hc])) b h
    · exact ih (fun hc => h0 (by simp at h0 hc; tauto)) b h

theorem endPos_single (l : List Nat) (h : ∀ b ∈ l, b ≠ 0) :
    ∀ tail, getStringEndPos (l ++ 0 :: tail) false = some l.length := by
  induction l with
  | nil => intro tail; simp [getStringEndPos]
  | cons b rest ih =>
    intro tail
    show getStringEndPos (b :: (rest ++ 0 :: tail)) false = some (rest.length + 1)
    simp only [getStringEndPos]
    rw [if_neg (h b (by simp)), ih (fun x hx => h x (by simp [hx])) tail]
    rfl

theorem decodeCString_data4 (short : List Nat) (hv : validUnits short)
    (hw : wellPaired short = true) (hns : (0 : Nat) ∉ short) (tail : List Nat) :
    decodeCString 4 (utf8FromUnits short ++ (0 :: tail)) (some 3) =
      .ok ⟨short, (utf8FromUnits short).length, (utf8FromUnits short).length + 1⟩ := by
  unfold decodeCString
  have hE : getBufferEncoding 4 (utf8FromUnits short ++ (0 :: tail)) (some 3) =
      .ok ⟨"UTF-8", [], false, none⟩ := rfl
  rw [hE]
  show (match getStringEndPos (utf8FromUnits short ++ (0 :: tail)) false with
    | none => (Except.error JsError.unterminatedString : Except JsError CStr)
    | some nullPos =>
      (cpFromBuffer (jsSlice (utf8FromUnits short ++ (0 :: tail)) 0 nullPos) "UTF-8").bind
        (fun s => Except.ok (CStr.mk s nullPos (nullPos + 1)))) = _
  rw [endPos_single (utf8FromUnits short) (utf8_nonzero short hns) tail]
  have hslice : jsSlice (utf8FromUnits short ++ (0 :: tail)) 0 (utf8FromUnits short).length =
      utf8FromUnits short := by
    unfold jsSlice
    rw [List.take_left, List.drop_zero]
  show (cpFromBuffer (jsSlice (utf8FromUnits short ++ (0 :: tail)) 0
      (utf8FromUnits short).length) "UTF-8").bind
    (fun s => Except.ok (CStr.mk s (utf8FromUnits short).length
      ((utf8FromUnits short).length + 1))) = _
  rw [hslice]
  show Except.ok (CStr.mk (utf8ToUnits (utf8FromUnits short)) (utf8FromUnits short).length
    ((utf8FromUnits short).length + 1)) = _
  rw [utf8_roundtrip short hv hw]

theorem drop_data4 (short : List Nat) (tail : List Nat) :
    (utf8FromUnits short ++ (0 :: tail)).drop ((utf8FromUnits short).length + 1) = tail := by
  rw [← List.drop_drop, List.drop_left]
  rfl

theorem internal_decode_utf8_none (long : List Nat) (hv : validUnits long)
    (hw : wellPaired long = true) (hh : long.head? ≠ some 0xFEFF) :
    internalDecodeString 4 (utf8FromUnits long) none = .ok long := by
  unfold internalDecodeString
  show (match UCEncodings.find? (fun (e : BufEncoding) => e.bom.isPrefixOf (utf8FromUnits long)) with
    | some e => (Except.ok e : Except JsError BufEncoding)
    | none => Except.error JsError.typeError).bind
      (fun (e : BufEncoding) => cpFromBuffer ((utf8FromUnits long).drop e.bom.length) e.name) = _
  rw [find_empty_bom long hv hw hh]
  show Except.ok (utf8ToUnits ((utf8FromUnits long).drop 0)) = _
  rw [List.drop_zero, utf8_roundtrip long hv hw]

theorem encodeComment4_eq (lang short long : List Nat) (hlang : lang.length = 3)
    (hla : ∀ b ∈ lang, b < 128) (hw : wellPaired short = true) :
    encodeComment 4 ⟨lang, short, long⟩ =
      .ok (0x03 :: (lang ++ (utf8FromUnits short ++ (0 :: utf8FromUnits long)))) := by
  have h0 : encodeComment 4 ⟨lang, short, long⟩ =
      .ok (0x03 ::
        ((lang.take 3 ++ List.replicate (3 - (lang.take 3).length) 0x20).map (· % 256)) ++
        ([] ++ utf8FromUnits (short ++ [0])) ++
        ([] ++ utf8FromUnits long)) := rfl
  rw [h0]
  have ht : lang.take 3 = lang := by
    rw [show (3 : Nat) = lang.length from hlang.symm]
    exact List.take_length lang
  rw [ht, hlang, Nat.sub_self, List.replicate_zero, List.append_nil]
  rw [map_mod_id lang 256 (fun b hb => lt_trans (hla b hb) (by norm_num))]
  rw [utf8FromUnits_append short [0] hw]
  show Except.ok ((0x03 :: lang ++ (utf8FromUnits short ++ [0])) ++ utf8FromUnits long) =
    Except.ok (0x03 :: (lang ++ (utf8FromUnits short ++ (0 :: utf8FromUnits long))))
  simp [List.append_assoc]

/-- C4 counterexample: the language "eng" is exactly 3 ASCII characters, yet
the comment ⟨"eng", "\u0000", ""⟩ does not round-trip: the NUL code unit of
the short text collides with the terminator, so the decoder returns an empty
short text and misreads the long text's BOM bytes. -/
theorem comment_roundtrip_counterexample :
    (encodeComment 3 ⟨[101, 110, 103], [0], []⟩).bind (decodeComment 3) =
      .ok ⟨[101, 110, 103], [], [0, 0, 65533, 65533]⟩ ∧
    Comment.mk [101, 110, 103] [] [0, 0, 65533, 65533] ≠
      Comment.mk [101, 110, 103] [0] [] := by
  exact ⟨rfl, by decide⟩

/-- C4 (amended): `decode_comment (encode_comment c) = c` holds for a comment
whose language is exactly 3 ASCII characters provided the short and long
texts are expressible in the version's default encoding, the short text
contains no NUL code unit, and (v2.4 only) the long text does not begin with
U+FEFF; and a 2-character language is space-padded, so "en" decodes back as
"en ". -/
theorem comment_codec_roundtrip :
    (∀ lang short long : List Nat, lang.length = 3 → (∀ b ∈ lang, b < 128) →
      validUnits short → (0 : Nat) ∉ short → validUnits long →
      (encodeComment 3 ⟨lang, short, long⟩).bind (decodeComment 3) =
        .ok ⟨lang, short, long⟩) ∧
    (∀ lang short long : List Nat, lang.length = 3 → (∀ b ∈ lang, b < 128) →
      validUnits short → wellPaired short = true → (0 : Nat) ∉ short →
      validUnits long → wellPaired long = true → long.head? ≠ some 0xFEFF →
      (encodeComment 4 ⟨lang, short, long⟩).bind (decodeComment 4) =
        .ok ⟨lang, short, long⟩) ∧
    (encodeComment 3 ⟨[101, 110], [], []⟩).bind (decodeComment 3) =
      .ok ⟨[101, 110, 32], [], []⟩ := by
  refine ⟨?_, ?_, rfl⟩
  · intro lang short long hlang hla hv hns hvl
    rw [encodeComment3_eq lang short long hlang hla]
    show decodeComment 3 (0x01 :: (lang ++ (0xFF :: 0xFE :: (utf16leFromUnits short ++
      (0 :: 0 :: (0xFF :: 0xFE :: utf16leFromUnits long)))))) =
        Except.ok (Comment.mk lang short long)
    exact decodeComment_cons 3 0x01 lang _ short long
      (2 + 2 * short.length) (2 + 2 * short.length + 2) hlang hla
      ⟨_, getBufferEncoding_LE 3 _⟩
      (decodeCString_data3 short hv hns (0xFF :: 0xFE :: utf16leFromUnits long))
      (by rw [drop_data3 short (0xFF :: 0xFE :: utf16leFromUnits long)]
          exact internal_decode_LE_none long hvl)
  · intro lang short long hlang hla hv hw hns hvl hwl hhl
    rw [encodeComment4_eq lang short long hlang hla hw]
    show decodeComment 4 (0x03 :: (lang ++ (utf8FromUnits short ++
      (0 :: utf8FromUnits long)))) = Except.ok (Comment.mk lang short long)
    exact decodeComment_cons 4 0x03 lang _ short long
      (utf8FromUnits short).length ((utf8FromUnits short).length + 1) hlang hla
      ⟨⟨"UTF-8", [], false, none⟩, rfl⟩
      (decodeCString_data4 short hv hw hns (utf8FromUnits long))
      (by rw [drop_data4 short (utf8FromUnits long)]
          exact internal_decode_utf8_none long hvl hwl hhl)

theorem comment_codec_roundtrip_witness :
    (encodeComment 3 ⟨[101, 110, 103], [72, 105], [33]⟩).bind (decodeComment 3) =
      .ok ⟨[101, 110, 103], [72, 105], [33]⟩ ∧
    (encodeComment 4 ⟨[101, 110, 103], [72, 105], [33]⟩).bind (decodeComment 4) =
      .ok ⟨[101, 110, 103], [72, 105], [33]⟩ :=
  ⟨comment_codec_roundtrip.1 [101, 110, 103] [72, 105] [33] rfl (by decide)
      (by intro u hu; simp at hu; omega) (by decide)
      (by intro u hu; simp at hu; omega),
    comment_codec_roundtrip.2.1 [101, 110, 103] [72, 105] [33] rfl (by decide)
      (by intro u hu; simp at hu; omega) (by decide) (by decide)
      (by intro u hu; simp at hu; omega) (by decide) (by decide)⟩

/-! ## The tag reader (`src/src/frame.ts` and the module's `readID3v2`) -/

/-- A file opened for reading: its bytes and the current read position. -/
structure FileState where
  bytes : List Nat
  pos : Nat
  deriving DecidableEq, Repr

/-- `buffer.readUInt32BE(off)` on the modelled byte list. -/
def readUInt32BE (l : List Nat) (off : Nat) : Nat :=
  l.getD off 0 * 2 ^ 24 + l.getD (off + 1) 0 * 2 ^ 16 +
    l.getD (off + 2) 0 * 2 ^ 8 + l.getD (off + 3) 0

/-- `buffer.readUInt16BE(off)` on the modelled byte list. -/
def readUInt16BE (l : List Nat) (off : Nat) : Nat :=
  l.getD off 0 * 2 ^ 8 + l.getD (off + 1) 0

/-- `Frame.read(file, mediaStart)` (frame.ts lines 104-144): a NUL first byte
yields the padding placeholder covering `[pos, mediaStart)` and jumps to
`mediaStart`; otherwise the 10-byte frame header is parsed and the payload
sliced out. -/
def readFrame (file : FileState) (mediaStart : Nat) : Except JsError (Frame × FileState) :=
  if file.bytes.length ≤ file.pos then .error .readError
  else if file.bytes.getD file.pos 0 = 0 then
    .ok ({ id := "", pos := (file.pos : Int), size := mediaStart - file.pos, data := [],
           flags := 0, padding := true },
         { file with pos := mediaStart })
  else if file.bytes.length < file.pos + 10 then .error .readError
  else
    .ok ({ id := String.mk ((jsSlice file.bytes file.pos (file.pos + 4)).map Char.ofNat),
           pos := ((file.pos + 10 : Nat) : Int),
           size := readUInt32BE file.bytes (file.pos + 4),
           data := jsSlice file.bytes (file.pos + 10)
             (file.pos + 10 + readUInt32BE file.bytes (file.pos + 4)),
           flags := readUInt16BE file.bytes (file.pos + 8),
           padding := false },
         { file with pos := file.pos + 10 + readUInt32BE file.bytes (file.pos + 4) })

/-- The `while (file.pos < tagSize)` loop of `readFrames`, with explicit fuel
(every iteration moves the position strictly forward, so `tagSize + 1` steps
always suffice). -/
def readFramesFuel : Nat → FileState → Nat → Except JsError (List Frame × FileState)
  | 0, _, _ => .error .readError
  | fuel + 1, file, tagSize =>
    if file.pos < tagSize then do
      let (f, file2) ← readFrame file tagSize
      let (rest, file3) ← readFramesFuel fuel file2 tagSize
      .ok (f :: rest, file3)
    else .ok ([], file)

/-- `readFrames(file, tagSize)` (frame.ts lines 279-289). -/
def readFrames (file : FileState) (tagSize : Nat) : Except JsError (List Frame × FileState) :=
  readFramesFuel (tagSize + 1 - file.pos) file tagSize

/-- `getPadding(frames)` (frame.ts lines 265-269): `frames[frames.length-1]`
is `undefined` for an empty frame list, so the `.getPadding()` call on it
throws a TypeError. -/
def getPadding (frames : List Frame) : Except JsError PaddingD :=
  match frames.getLast? with
  | none => .error .typeError
  | some f => .ok (Frame.getPadding f)

/-- `readID3v2(path)` (the reader module appended to frame.ts): parse the
10-byte tag header, read the frames up to the decoded tag size, derive the
padding descriptor, filter padding frames out, and build the TagData. -/
def readID3v2 (bytes : List Nat) : Except JsError TagData :=
  if bytes.length < 10 then .error .cantReadHeader
  else
    let major := bytes.getD 3 0
    let minor := bytes.getD 4 0
    let flags := bytes.getD 5 0
    let headerSize := decodeUInt7Bit (readUInt32BE bytes 6) + 10
    if bytes.take 3 ≠ [0x49, 0x44, 0x33] then .ok TagData.noHeader
    else if major ≠ 4 ∧ major ≠ 3 then .error .unsupportedVersion
    else if flags &&& 0x40 ≠ 0 then .error .extendedHeader
    else
      let fullSize := if major = 4 ∧ flags &&& 0x10 ≠ 0 then headerSize + 10 else headerSize
      do
        let (frames, _) ← readFrames ⟨bytes, 10⟩ fullSize
        let padding ← getPadding frames
        .ok (TagData.make major minor flags (fullSize : Int)
          (frames.filter (fun f => !f.padding)) padding)

/-- C5: on a well-formed v2.3 file whose encoded content size is zero the
reader crashes with a TypeError — `getPadding` dereferences the last element
of the empty frame list — instead of returning the zero-frame, zero-size
padding tag the spec describes; the frame-reading loop itself correctly
returns no frames. -/
theorem empty_tag_reader_crashes :
    readID3v2 [0x49, 0x44, 0x33, 3, 0, 0, 0, 0, 0, 0] = .error .typeError ∧
    readFrames ⟨[0x49, 0x44, 0x33, 3, 0, 0, 0, 0, 0, 0], 10⟩ 10 =
      .ok ([], ⟨[0x49, 0x44, 0x33, 3, 0, 0, 0, 0, 0, 0], 10⟩) ∧
    getPadding [] = .error .typeError :=
  ⟨rfl, rfl, rfl⟩
